import Mathlib

/-!
Verification development for the extraction-and-reconciliation engine of the
Legal_Tabular repository.  The Python sources under backend/src/services are
shallowly embedded: pure functions become Lean functions on `List Char` and
`ℚ` (Python float arithmetic on these code paths is exact decimal arithmetic,
modelled by exact rationals; Python string predicates are modelled on ASCII).
Regular expressions are embedded as abstract syntax trees interpreted by a
small backtracking matcher with Python re semantics (ordered alternation,
greedy and lazy quantifiers, leftmost search, non-overlapping global
substitution).  External model providers (Groq, Gemini, generic LLM client)
perform network calls; their combined outcome, an extraction candidate
record, is an explicit input of the embedded pipeline.
-/

set_option maxRecDepth 200000
set_option maxHeartbeats 1000000

namespace LegalTabular

/-! ## Exact rational helpers

Python float arithmetic in the pipeline (confidence products, Jaccard
similarity, the min-with-1 clamp) is modelled with `ℚ`.  The operations are
written with `mkRat` and `Rat.blt` so that concrete runs reduce inside the
kernel; bridge lemmas relate them to the Mathlib operations. -/

def qAdd (a b : ℚ) : ℚ := mkRat (a.num * b.den + b.num * a.den) (a.den * b.den)

def qMul (a b : ℚ) : ℚ := mkRat (a.num * b.num) (a.den * b.den)

/-- Python min of two numbers. -/
def qMin (a b : ℚ) : ℚ := if Rat.blt b a then b else a

theorem qAdd_eq (a b : ℚ) : qAdd a b = a + b := by
  unfold qAdd
  rw [Rat.mkRat_eq_div]
  push_cast
  have had : (a.den : ℚ) ≠ 0 := by exact_mod_cast a.den_nz
  have hbd : (b.den : ℚ) ≠ 0 := by exact_mod_cast b.den_nz
  have ha : a * (a.den : ℚ) = a.num := by
    nth_rewrite 1 [← Rat.num_div_den a]
    exact div_mul_cancel₀ _ had
  have hb : b * (b.den : ℚ) = b.num := by
    nth_rewrite 1 [← Rat.num_div_den b]
    exact div_mul_cancel₀ _ hbd
  rw [div_eq_iff (mul_ne_zero had hbd), ← ha, ← hb]
  ring

theorem qMul_eq (a b : ℚ) : qMul a b = a * b := by
  unfold qMul
  rw [Rat.mkRat_eq_div]
  push_cast
  have had : (a.den : ℚ) ≠ 0 := by exact_mod_cast a.den_nz
  have hbd : (b.den : ℚ) ≠ 0 := by exact_mod_cast b.den_nz
  have ha : a * (a.den : ℚ) = a.num := by
    nth_rewrite 1 [← Rat.num_div_den a]
    exact div_mul_cancel₀ _ had
  have hb : b * (b.den : ℚ) = b.num := by
    nth_rewrite 1 [← Rat.num_div_den b]
    exact div_mul_cancel₀ _ hbd
  rw [div_eq_iff (mul_ne_zero had hbd), ← ha, ← hb]
  ring

theorem qMin_eq (a b : ℚ) : qMin a b = min a b := by
  unfold qMin
  rcases lt_trichotomy b a with h | h | h
  · simp [show Rat.blt b a = true from h, min_eq_right (le_of_lt h)]
  · subst h; simp
  · have hblt : ¬ (Rat.blt b a = true) := by
      simp only [show (Rat.blt b a = true) ↔ b < a from Iff.rfl]
      exact not_lt_of_lt h
    simp [hblt, min_eq_left (le_of_lt h)]

/-! ## ASCII character predicates (model of the Python str methods) -/

/-- Python whitespace class (ASCII part of the regex class with backslash s). -/
def pyIsSpace (c : Char) : Bool :=
  c = ' ' || c = '\t' || c = '\n' || c = '\r' || c = '\x0b' || c = '\x0c'

def isLowerC (c : Char) : Bool := 97 ≤ c.toNat && c.toNat ≤ 122

def isUpperC (c : Char) : Bool := 65 ≤ c.toNat && c.toNat ≤ 90

def isDigitC (c : Char) : Bool := 48 ≤ c.toNat && c.toNat ≤ 57

def isAlphaC (c : Char) : Bool := isLowerC c || isUpperC c

def isAlnumC (c : Char) : Bool := isAlphaC c || isDigitC c

/-- Regex word character: letters, digits, underscore. -/
def isWordC (c : Char) : Bool := isAlnumC c || c = '_'

def lowerChar (c : Char) : Char :=
  if isUpperC c then Char.ofNat (c.toNat + 32) else c

def upperChar (c : Char) : Char :=
  if isLowerC c then Char.ofNat (c.toNat - 32) else c

theorem toNat_charOfNat (n : Nat) (h : n < 55296) : (Char.ofNat n).toNat = n := by
  have hv : n.isValidChar := Or.inl h
  simp [Char.ofNat, hv, Char.ofNatAux, Char.toNat, UInt32.ofNat', UInt32.toNat]

theorem isLowerC_upperChar (c : Char) : isLowerC c = true → isLowerC (upperChar c) = false := by
  intro h
  unfold upperChar
  rw [h]
  simp only [if_true]
  unfold isLowerC at h ⊢
  have h1 : 97 ≤ c.toNat := by
    have := (Bool.and_eq_true _ _).mp h
    exact Nat.le_of_ble_eq_true (by simpa using this.1)
  have h2 : c.toNat ≤ 122 := by
    have := (Bool.and_eq_true _ _).mp h
    exact Nat.le_of_ble_eq_true (by simpa using this.2)
  have hofn : (Char.ofNat (c.toNat - 32)).toNat = c.toNat - 32 :=
    toNat_charOfNat _ (by omega)
  rw [hofn]
  simp only [Bool.and_eq_false_iff]
  left
  simp only [decide_eq_false_iff_not]
  omega

/-! ## List-of-characters string helpers (Python str operations) -/

def lowerL (l : List Char) : List Char := l.map lowerChar

def upperL (l : List Char) : List Char := l.map upperChar

/-- Python str.strip with no argument. -/
def pyStripL (l : List Char) : List Char :=
  ((l.dropWhile pyIsSpace).reverse.dropWhile pyIsSpace).reverse

def pyStrip (s : String) : String := ⟨pyStripL s.data⟩

/-- Python str.lstrip with an explicit character set. -/
def lstripSet (cs : List Char) (l : List Char) : List Char :=
  l.dropWhile (fun c => cs.contains c)

/-- Python str.rstrip with an explicit character set. -/
def rstripSet (cs : List Char) (l : List Char) : List Char :=
  (l.reverse.dropWhile (fun c => cs.contains c)).reverse

/-- Python slicing text between positions a and b (code point indices). -/
def sliceL (l : List Char) (a b : Nat) : List Char := (l.take b).drop a

/-- Python str.split with no argument: split on whitespace runs, no empties. -/
def splitWsGo (cur : List Char) (acc : List (List Char)) : List Char → List (List Char)
  | [] => if cur.isEmpty then acc.reverse else (cur.reverse :: acc).reverse
  | c :: rest =>
    if pyIsSpace c then
      if cur.isEmpty then splitWsGo [] acc rest else splitWsGo [] (cur.reverse :: acc) rest
    else splitWsGo (c :: cur) acc rest

def splitWs (l : List Char) : List (List Char) := splitWsGo [] [] l

/-- Python single-space join of word lists. -/
def joinSpace : List (List Char) → List Char
  | [] => []
  | [w] => w
  | w :: rest => w ++ ' ' :: joinSpace rest

/-- Case insensitive list-prefix test. -/
def isPrefixOfCI : List Char → List Char → Bool
  | [], _ => true
  | _ :: _, [] => false
  | p :: ps, c :: cs => (lowerChar p = lowerChar c) && isPrefixOfCI ps cs

/-- Python substring containment (the in operator on str). -/
def containsSub (needle : List Char) : List Char → Bool
  | [] => needle.isEmpty
  | c :: rest => needle.isPrefixOf (c :: rest) || containsSub needle rest

/-- Python str.replace with a non-empty pattern, fuelled structurally. -/
def replaceAllGo (pat sub : List Char) : Nat → List Char → List Char
  | 0, l => l
  | _ + 1, [] => []
  | fuel + 1, c :: rest =>
    if !pat.isEmpty && pat.isPrefixOf (c :: rest) then
      sub ++ replaceAllGo pat sub fuel ((c :: rest).drop pat.length)
    else c :: replaceAllGo pat sub fuel rest

def replaceAllL (pat sub l : List Char) : List Char :=
  replaceAllGo pat sub (l.length + 1) l

/-- Case insensitive literal global replacement (re.sub on an escaped literal
with the IGNORECASE flag). -/
def replaceAllCIGo (pat sub : List Char) : Nat → List Char → List Char
  | 0, l => l
  | _ + 1, [] => []
  | fuel + 1, c :: rest =>
    if !pat.isEmpty && isPrefixOfCI pat (c :: rest) then
      sub ++ replaceAllCIGo pat sub fuel ((c :: rest).drop pat.length)
    else c :: replaceAllCIGo pat sub fuel rest

def replaceAllCIL (pat sub l : List Char) : List Char :=
  replaceAllCIGo pat sub (l.length + 1) l

/-- Python str.isupper: at least one cased character and no lowercase one
(cased modelled as ASCII letters). -/
def isUpperStr (l : List Char) : Bool :=
  l.any isUpperC && l.all (fun c => !isLowerC c)

/-- Python int to decimal string (str of a Nat), fuelled structurally. -/
def natDigitsGo : Nat → Nat → List Char → List Char
  | 0, _, acc => acc
  | fuel + 1, n, acc =>
    let d := Char.ofNat (48 + n % 10)
    if n < 10 then d :: acc else natDigitsGo fuel (n / 10) (d :: acc)

def natToStr (n : Nat) : String := ⟨natDigitsGo (n + 1) n []⟩

/-- Zero padding on the left to a given width (Python format fill 0). -/
def padZero (w : Nat) (l : List Char) : List Char :=
  List.replicate (w - l.length) '0' ++ l

/-- Digits of a numeric string as a natural number. -/
def digitsToNat (l : List Char) : Nat :=
  l.foldl (fun acc c => acc * 10 + (c.toNat - 48)) 0

/-- Truthiness of an optional string: Python None and the empty string are
falsy. -/
def truthy : Option String → Bool
  | none => false
  | some s => !s.data.isEmpty

/-- Python or-chain on optional strings: first truthy value, else default. -/
def orTruthy (a : Option String) (b : String) : String :=
  match a with
  | none => b
  | some s => if s.data.isEmpty then b else s

/-! ## Regex engine

A small abstract syntax for the regular expressions appearing in
field_extractor.py, with a continuation-passing backtracking matcher that
follows Python re semantics: ordered alternation, greedy and lazy
quantifiers over character classes, word boundaries, optional groups,
capture groups, leftmost search, and non-overlapping global substitution.
Quantifiers in the embedded patterns only ever apply to single-character
atoms, which the syntax reflects. -/

inductive CItem where
  | ch (c : Char)
  | range (lo hi : Char)
  | digit
  | space
  | word
deriving DecidableEq, Repr

structure CClass where
  neg : Bool
  items : List CItem
deriving DecidableEq, Repr

def citemMatch (c : Char) : CItem → Bool
  | .ch c0 => c = c0
  | .range lo hi => lo.toNat ≤ c.toNat && c.toNat ≤ hi.toNat
  | .digit => isDigitC c
  | .space => pyIsSpace c
  | .word => isWordC c

def cclassRaw (cl : CClass) (c : Char) : Bool := cl.items.any (citemMatch c)

/-- Class membership; under IGNORECASE a character also matches through its
other-case form, and negated classes negate the folded test. -/
def cclassMatch (ci : Bool) (cl : CClass) (c : Char) : Bool :=
  let hit := cclassRaw cl c || (ci && (cclassRaw cl (lowerChar c) || cclassRaw cl (upperChar c)))
  if cl.neg then !hit else hit

inductive RE where
  | eps
  | lit (s : List Char)
  | cls (cl : CClass)
  | seqb (a b : RE)
  | altb (a b : RE)
  | grp (idx : Nat) (r : RE)
  | rep (cl : CClass) (lo : Nat) (hi : Option Nat) (lazy : Bool)
  | opt (r : RE)
  | bnd
  | bos
  | eos

/-- Literal match at a position (case folded under IGNORECASE). -/
def litMatch (ci : Bool) (chars : List Char) : List Char → Nat → Option Nat
  | [], pos => some pos
  | c :: rest, pos =>
    match chars.get? pos with
    | none => none
    | some d =>
      if (if ci then lowerChar d = lowerChar c else d = c) then
        litMatch ci chars rest (pos + 1)
      else none

/-- Length of the maximal run of class matches starting at a position. -/
def clsRun (ci : Bool) (chars : List Char) (cl : CClass) : Nat → Nat → Nat
  | 0, _ => 0
  | fuel + 1, pos =>
    match chars.get? pos with
    | none => 0
    | some c => if cclassMatch ci cl c then 1 + clsRun ci chars cl fuel (pos + 1) else 0

/-- Try the continuation at each candidate end position in preference order. -/
def tryCounts (k : Nat → Option (Nat × List (Nat × Nat × Nat))) (pos : Nat) :
    List Nat → Option (Nat × List (Nat × Nat × Nat))
  | [] => none
  | n :: rest =>
    match k (pos + n) with
    | some r => some r
    | none => tryCounts k pos rest

/-- The backtracking matcher.  `reM ci chars r pos caps k` attempts to match
`r` at `pos`, invoking the continuation `k` with the end position and the
capture list on every candidate parse, in Python preference order. -/
def reM (ci : Bool) (chars : List Char) :
    RE → Nat → List (Nat × Nat × Nat) →
    (Nat → List (Nat × Nat × Nat) → Option (Nat × List (Nat × Nat × Nat))) →
    Option (Nat × List (Nat × Nat × Nat))
  | .eps, pos, caps, k => k pos caps
  | .lit s, pos, caps, k =>
    match litMatch ci chars s pos with
    | some p => k p caps
    | none => none
  | .cls cl, pos, caps, k =>
    match chars.get? pos with
    | some c => if cclassMatch ci cl c then k (pos + 1) caps else none
    | none => none
  | .seqb a b, pos, caps, k =>
    reM ci chars a pos caps (fun p c => reM ci chars b p c k)
  | .altb a b, pos, caps, k =>
    match reM ci chars a pos caps k with
    | some r => some r
    | none => reM ci chars b pos caps k
  | .grp i r, pos, caps, k =>
    reM ci chars r pos caps (fun p c => k p ((i, pos, p) :: c))
  | .rep cl lo hi lazy, pos, caps, k =>
    let run := clsRun ci chars cl (chars.length + 1) pos
    if run < lo then none
    else
      let mx := match hi with | none => run | some h => min h run
      let counts :=
        if lazy then (List.range (mx - lo + 1)).map (fun i => lo + i)
        else (List.range (mx - lo + 1)).map (fun i => mx - i)
      tryCounts (fun p => k p caps) pos counts
  | .opt r, pos, caps, k =>
    match reM ci chars r pos caps k with
    | some res => some res
    | none => k pos caps
  | .bnd, pos, caps, k =>
    let w1 := match (if pos = 0 then none else chars.get? (pos - 1)) with
              | some c => isWordC c
              | none => false
    let w2 := match chars.get? pos with
              | some c => isWordC c
              | none => false
    if w1 != w2 then k pos caps else none
  | .bos, pos, caps, k => if pos = 0 then k pos caps else none
  | .eos, pos, caps, k =>
    if pos = chars.length || (pos + 1 = chars.length && chars.get? pos = some '\n') then
      k pos caps
    else none

structure RMatch where
  rstart : Nat
  rstop : Nat
  caps : List (Nat × Nat × Nat)
deriving DecidableEq, Repr

/-- Leftmost search from a position (re.search scanning behaviour). -/
def reSearchFrom (ci : Bool) (chars : List Char) (r : RE) : Nat → Nat → Option RMatch
  | 0, _ => none
  | fuel + 1, pos =>
    match reM ci chars r pos [] (fun p c => some (p, c)) with
    | some (e, cps) => some ⟨pos, e, cps⟩
    | none => if pos < chars.length then reSearchFrom ci chars r fuel (pos + 1) else none

/-- re.search: leftmost match anywhere in the text. -/
def reSearch (ci : Bool) (r : RE) (chars : List Char) : Option RMatch :=
  reSearchFrom ci chars r (chars.length + 1) 0

/-- re.match: match anchored at position 0. -/
def reMatch0 (ci : Bool) (r : RE) (chars : List Char) : Option RMatch :=
  match reM ci chars r 0 [] (fun p c => some (p, c)) with
  | some (e, cps) => some ⟨0, e, cps⟩
  | none => none

/-- re.finditer: successive non-overlapping leftmost matches. -/
def reFindAllFrom (ci : Bool) (chars : List Char) (r : RE) : Nat → Nat → List RMatch
  | 0, _ => []
  | fuel + 1, pos =>
    match reSearchFrom ci chars r (chars.length + 1) pos with
    | none => []
    | some m =>
      m :: reFindAllFrom ci chars r fuel (if m.rstart < m.rstop then m.rstop else m.rstop + 1)

def reFindAll (ci : Bool) (r : RE) (chars : List Char) : List RMatch :=
  reFindAllFrom ci chars r (chars.length + 2) 0

/-- Span of a capture group inside a match. -/
def grpSpan (m : RMatch) (i : Nat) : Option (Nat × Nat) :=
  (m.caps.find? (fun t => t.1 = i)).map (fun t => (t.2.1, t.2.2))

/-- Text of a capture group inside a match. -/
def grpStr (chars : List Char) (m : RMatch) (i : Nat) : Option (List Char) :=
  (grpSpan m i).map (fun p => sliceL chars p.1 p.2)

/-- Full text of a match (group 0). -/
def matchStr (chars : List Char) (m : RMatch) : List Char :=
  sliceL chars m.rstart m.rstop

/-- re.sub: global non-overlapping substitution, replacement computed from
each match; after an empty match the scan advances one character. -/
def reSubFrom (ci : Bool) (chars : List Char) (r : RE) (repl : RMatch → List Char) :
    Nat → Nat → List Char
  | 0, pos => chars.drop pos
  | fuel + 1, pos =>
    match reSearchFrom ci chars r (chars.length + 1) pos with
    | none => chars.drop pos
    | some m =>
      sliceL chars pos m.rstart ++ repl m ++
        (if m.rstart < m.rstop then reSubFrom ci chars r repl fuel m.rstop
         else
           match chars.get? m.rstop with
           | some c => c :: reSubFrom ci chars r repl fuel (m.rstop + 1)
           | none => [])

def reSub (ci : Bool) (r : RE) (repl : RMatch → List Char) (chars : List Char) : List Char :=
  reSubFrom ci chars r repl (chars.length + 2) 0

/-! Builder shorthands for transliterating the Python pattern strings. -/

def rseq (rs : List RE) : RE := rs.foldr RE.seqb RE.eps

def ralt : List RE → RE
  | [] => RE.cls ⟨false, []⟩
  | [r] => r
  | r :: rest => RE.altb r (ralt rest)

def rlit (s : String) : RE := RE.lit s.data

def rcls (items : List CItem) : RE := RE.cls ⟨false, items⟩

/-- One-or-more over a character class, greedy. -/
def rplus (items : List CItem) : RE := RE.rep ⟨false, items⟩ 1 none false

/-- Zero-or-more over a character class, greedy. -/
def rstar (items : List CItem) : RE := RE.rep ⟨false, items⟩ 0 none false

/-- One-or-more over a negated character class, lazy. -/
def rplusLazyN (items : List CItem) : RE := RE.rep ⟨true, items⟩ 1 none true

/-- Zero-or-more over a negated character class, lazy. -/
def rstarLazyN (items : List CItem) : RE := RE.rep ⟨true, items⟩ 0 none true

/-- Lazy one-or-more over a plain class. -/
def rplusLazy (items : List CItem) : RE := RE.rep ⟨false, items⟩ 1 none true

/-- Lazy zero-or-more over a plain class. -/
def rstarLazy (items : List CItem) : RE := RE.rep ⟨false, items⟩ 0 none true

/-- Zero-or-more over a negated class, greedy. -/
def rstarN (items : List CItem) : RE := RE.rep ⟨true, items⟩ 0 none false

/-- One-or-more over a negated class, greedy. -/
def rplusN (items : List CItem) : RE := RE.rep ⟨true, items⟩ 1 none false

/-- The dot atom: any character except a newline (DOTALL off). -/
def dotItems : List CItem := [CItem.ch '\n']

/-- Greedy dot-star. -/
def rdotStar : RE := RE.rep ⟨true, dotItems⟩ 0 none false

/-- Lazy dot-star. -/
def rdotStarLazy : RE := RE.rep ⟨true, dotItems⟩ 0 none true

/-! ## Cleaning pipeline

Embedding of FieldExtractor._clean_extracted_value (field_extractor.py,
lines 719 to 910).  Each regex constant is annotated with the Python pattern
it transliterates. -/

def spaceI : List CItem := [CItem.space]

def digitI : List CItem := [CItem.digit]

/-- Pattern \s+ -/
def reWsRun : RE := rplus spaceI

/-- Pattern ^(?:and|or|but|because|so)\s+ used with IGNORECASE -/
def reConj : RE :=
  rseq [RE.bos, ralt [rlit "and", rlit "or", rlit "but", rlit "because", rlit "so"],
        rplus spaceI]

/-- Pattern ^(?:and,?\s*In)\s+ used with IGNORECASE -/
def reAndIn : RE :=
  rseq [RE.bos, rlit "and", RE.opt (rlit ","), rstar spaceI, rlit "In", rplus spaceI]

/-- Pattern ^(?:and\s+ii\s+from)\s+ used with IGNORECASE -/
def reAndIiFrom : RE :=
  rseq [RE.bos, rlit "and", rplus spaceI, rlit "ii", rplus spaceI, rlit "from",
        rplus spaceI]

/-- Pattern ^\d+\.+\.+ -/
def reNumDots : RE :=
  rseq [RE.bos, rplus digitI, rplus [CItem.ch '.'], rplus [CItem.ch '.']]

/-- Pattern ^\.+\s* -/
def reLeadDots : RE := rseq [RE.bos, rplus [CItem.ch '.'], rstar spaceI]

/-- Pattern ^\d{2,}\s+ -/
def reLeadNums : RE := rseq [RE.bos, RE.rep ⟨false, digitI⟩ 2 none false, rplus spaceI]

/-- Class [:\s-] -/
def colonSpaceDash : List CItem := [CItem.ch ':', CItem.space, CItem.ch '-']

/-- Pattern ^(?:Here is the |The )?(?:extracted )?(?:value|answer)(?: is)?[:\s-]*
used with IGNORECASE -/
def reLlmPre1 : RE :=
  rseq [RE.bos, RE.opt (ralt [rlit "Here is the ", rlit "The "]),
        RE.opt (rlit "extracted "), ralt [rlit "value", rlit "answer"],
        RE.opt (rlit " is"), rstar colonSpaceDash]

/-- Pattern ^Extracted[:\s-]* used with IGNORECASE -/
def reLlmPre2 : RE := rseq [RE.bos, rlit "Extracted", rstar colonSpaceDash]

/-- Pattern ^Answer[:\s-]* used with IGNORECASE -/
def reLlmPre3 : RE := rseq [RE.bos, rlit "Answer", rstar colonSpaceDash]

def squoteCh : Char := Char.ofNat 39

def backtickCh : Char := Char.ofNat 96

def lbraceCh : Char := Char.ofNat 123

def rbraceCh : Char := Char.ofNat 125

/-- Pattern \[\s*(.*?)\s*\] replaced by group 1 -/
def reSquareWrap : RE :=
  rseq [rlit "[", rstar spaceI, RE.grp 1 rdotStarLazy, rstar spaceI, rlit "]"]

/-- Pattern \(\s*(.*?)\s*\) replaced by group 1 -/
def reParenWrap : RE :=
  rseq [rlit "(", rstar spaceI, RE.grp 1 rdotStarLazy, rstar spaceI, rlit ")"]

/-- Pattern for curly brace wrappers replaced by group 1 -/
def reCurlyWrap : RE :=
  rseq [RE.lit [lbraceCh], rstar spaceI, RE.grp 1 rdotStarLazy, rstar spaceI,
        RE.lit [rbraceCh]]

/-- The OCR repair lookup table, in source order (case insensitive literal
replacements). -/
def ocrRepairs : List (String × String) :=
  [("GIGAF ACT ORY", "GIGAFACTORY"),
   ("GIGA FACTORY", "GIGAFACTORY"),
   ("R ESTATED", "RESTATED"),
   ("REST ATED", "RESTATED"),
   ("F ACT ORY", "FACTORY"),
   ("F ACTORY", "FACTORY"),
   ("FACT ORY", "FACTORY"),
   ("L EASE", "LEASE"),
   ("A GREEMENT", "AGREEMENT"),
   ("C ONTRACT", "CONTRACT"),
   ("P ARTY", "PARTY"),
   ("E XECUTION", "EXECUTION"),
   ("E FFECTIVE", "EFFECTIVE"),
   ("S ERVICES", "SERVICES"),
   ("L ICENSE", "LICENSE"),
   ("A M E N D E D", "AMENDED"),
   ("T E R M S", "TERMS"),
   ("C O N D I T I O N S", "CONDITIONS"),
   ("AMENDED AND RESTATED", "Amended and Restated"),
   ("BETWE EN", "BETWEEN"),
   ("WHET HER", "WHETHER"),
   ("STATUT ORY", "STATUTORY"),
   ("HEREB Y", "HEREBY"),
   ("REPRESENT ATIONS", "REPRESENTATIONS"),
   ("IN WITNESS WHEREOF", "In Witness Whereof")]

def upAZ : List CItem := [CItem.range 'A' 'Z']

/-- Pattern \b([A-Z])\s+([A-Z])\s+([A-Z])\b replaced by the three groups -/
def reUp3 : RE :=
  rseq [RE.bnd, RE.grp 1 (rcls upAZ), rplus spaceI, RE.grp 2 (rcls upAZ),
        rplus spaceI, RE.grp 3 (rcls upAZ), RE.bnd]

/-- Pattern \b([A-Z])\s+([A-Z])\b replaced by the two groups -/
def reUp2 : RE :=
  rseq [RE.bnd, RE.grp 1 (rcls upAZ), rplus spaceI, RE.grp 2 (rcls upAZ), RE.bnd]

def lastIdxOf (c : Char) (l : List Char) : Option Nat :=
  ((l.enum.filter (fun p => p.2 = c)).map (fun p => p.1)).getLast?

/-- The noise phrase list of the cleaning step. -/
def noisePhrases : List String :=
  ["execution version", "confidential", "page", "of",
   "unknown", "not found", "none", "n/a", "undefined",
   "no information found", "not specified", "not stated"]

/-- All cleaning steps up to (and excluding) the noise phrase rejection. -/
def clean_value_basic (value : List Char) : List Char :=
  let cleaned := pyStripL value
  let cleaned := reSub false reWsRun (fun _ => [' ']) cleaned
  let cleaned := lstripSet ".,;:-".data cleaned
  let cleaned := reSub true reConj (fun _ => []) (pyStripL cleaned)
  let cleaned := reSub true reAndIn (fun _ => "In ".data) cleaned
  let cleaned := reSub true reAndIiFrom (fun _ => "From ".data) cleaned
  let cleaned := reSub false reNumDots (fun _ => []) cleaned
  let cleaned := reSub false reLeadDots (fun _ => []) cleaned
  let cleaned := reSub false reLeadNums (fun _ => []) cleaned
  let cleaned := pyStripL (lstripSet ".,;:-".data cleaned)
  let cleaned := replaceAllL "**".data [] cleaned
  let cleaned := replaceAllL "*".data [] cleaned
  let cleaned := replaceAllL [backtickCh] [] cleaned
  let cleaned := reSub true reLlmPre1 (fun _ => []) cleaned
  let cleaned := reSub true reLlmPre2 (fun _ => []) cleaned
  let cleaned := reSub true reLlmPre3 (fun _ => []) cleaned
  let cleaned := replaceAllL ['“'] ['"'] cleaned
  let cleaned := replaceAllL ['”'] ['"'] cleaned
  let cleaned := replaceAllL ['‘'] [squoteCh] cleaned
  let cleaned := replaceAllL ['’'] [squoteCh] cleaned
  let cleaned := reSub false reSquareWrap (fun m => (grpStr cleaned m 1).getD []) cleaned
  let cleaned := reSub false reParenWrap (fun m => (grpStr cleaned m 1).getD []) cleaned
  let cleaned := reSub false reCurlyWrap (fun m => (grpStr cleaned m 1).getD []) cleaned
  let cleaned := pyStripL cleaned
  let cleaned :=
    if (cleaned.head? = some '"' && cleaned.getLast? = some '"')
        || (cleaned.head? = some squoteCh && cleaned.getLast? = some squoteCh) then
      pyStripL (sliceL cleaned 1 (cleaned.length - 1))
    else cleaned
  let cleaned := ocrRepairs.foldl (fun acc p => replaceAllCIL p.1.data p.2.data acc) cleaned
  let cleaned := reSub false reUp3
    (fun m => (grpStr cleaned m 1).getD [] ++ (grpStr cleaned m 2).getD []
              ++ (grpStr cleaned m 3).getD []) cleaned
  let cleaned := reSub false reUp2
    (fun m => (grpStr cleaned m 1).getD [] ++ (grpStr cleaned m 2).getD []) cleaned
  let cleaned := reSub false reWsRun (fun _ => [' ']) cleaned
  let cleaned := rstripSet ".,;:".data cleaned
  let cleaned :=
    if cleaned.count ')' < cleaned.count '(' then
      match lastIdxOf '(' cleaned with
      | some lastOpen => if cleaned.length - lastOpen < 50 then cleaned ++ [')'] else cleaned
      | none => cleaned
    else cleaned
  cleaned

/-- Stray connective words dropped when they are the whole TEXT value. -/
def connectiveWords : List String := ["and", "or", "the", "a", "an", "of", "to", "by"]

/-- Pattern ^[\divx]+\.\s* used with IGNORECASE -/
def reEnum : RE :=
  rseq [RE.bos, rplus [CItem.digit, CItem.ch 'i', CItem.ch 'v', CItem.ch 'x'],
        rlit ".", rstar spaceI]

/-- Pattern ^(?:SECTION|ARTICLE)\s+[\d.]+\s* used with IGNORECASE -/
def reSecArt : RE :=
  rseq [RE.bos, ralt [rlit "SECTION", rlit "ARTICLE"], rplus spaceI,
        rplus [CItem.digit, CItem.ch '.'], rstar spaceI]

/-- Pattern for leading bullets -/
def reBullet : RE :=
  rseq [RE.bos, rcls [CItem.ch '-', CItem.ch '•', CItem.ch '*'], rstar spaceI]

/-- Pattern ^(?:title|name|date|amount|price)[:\s]+ used with IGNORECASE -/
def reFieldLabel : RE :=
  rseq [RE.bos,
        ralt [rlit "title", rlit "name", rlit "date", rlit "amount", rlit "price"],
        rplus [CItem.ch ':', CItem.space]]

/-- Pattern \b(These|This|The)\b used with IGNORECASE -/
def reTheseThisThe : RE :=
  rseq [RE.bnd, RE.grp 1 (ralt [rlit "These", rlit "This", rlit "The"]), RE.bnd]

/-- Pattern [A-Za-z]+ -/
def reAlphaRun : RE := rplus [CItem.range 'a' 'z', CItem.range 'A' 'Z']

/-- Python str.capitalize: first character upper, rest lower. -/
def capitalizeL : List Char → List Char
  | [] => []
  | c :: rest => upperChar c :: rest.map lowerChar

/-- Acronyms re-uppercased after the all-caps conversion. -/
def acronymsTitle : List String :=
  ["Llc", "Inc", "Lp", "Ltd", "Usa", "Us", "Uk", "Eu", "Gtc", "Ceo", "Cfo",
   "Cto", "Ii", "Iii", "Iv"]

/-- Words kept intact by the title-case demotion. -/
def titleKeepWords : List String :=
  ["GTC", "LLC", "INC", "LP", "USA", "US", "UK", "EU", "CEO", "CFO", "CTO",
   "II", "III", "IV", "Tesla", "Seller"]

/-- Pattern ^[A-Z0-9]+$ (the short all-caps code gate) -/
def reCapsCode : RE :=
  rseq [RE.bos, rplus [CItem.range 'A' 'Z', CItem.digit], RE.eos]

/-- The TEXT-only structural transformations (enumeration stripping, header
deduplication, case conversion, title-case demotion). -/
def text_transform (b : List Char) : List Char :=
    let cleaned := reSub true reEnum (fun _ => []) b
    let cleaned := reSub true reSecArt (fun _ => []) cleaned
    let cleaned := reSub false reBullet (fun _ => []) cleaned
    let cleaned := reSub true reFieldLabel (fun _ => []) cleaned
    let cleaned :=
      if 10 < (splitWs cleaned).length then
        match reSearch true reTheseThisThe (cleaned.drop 5) with
        | some m =>
          let startIdx := m.rstart + 5
          let preamble := pyStripL (cleaned.take startIdx)
          if isUpperStr preamble || preamble.length < 100 then cleaned.drop startIdx
          else cleaned
        | none => cleaned
      else cleaned
    let letters := cleaned.filter (fun c => isAlphaC c)
    let cleaned :=
      if !letters.isEmpty && letters.length * 3 < (letters.countP isUpperC) * 5 then
        let converted := reSub false reAlphaRun
          (fun m => capitalizeL (matchStr (lowerL cleaned) m)) (lowerL cleaned)
        acronymsTitle.foldl
          (fun acc acr =>
            reSub true (rseq [RE.bnd, rlit acr, RE.bnd]) (fun _ => upperL acr.data) acc)
          converted
      else cleaned
    let words := splitWs cleaned
    let cleaned :=
      if 8 < words.length
          && words.length * 3 < (words.countP (fun w => match w.head? with
              | some c => isUpperC c
              | none => false)) * 5 then
        joinSpace ((List.range words.length).map (fun i =>
          let w := words.getD i []
          if i = 0 then w
          else if titleKeepWords.contains (String.mk (upperL w)) then w
          else lowerL w))
      else cleaned
    cleaned

/-- The closing steps of the TEXT cleanup: capitalize a lowercase first
character, then reject values shorter than three characters unless they
match the all-caps code pattern. -/
def text_finish (cleaned0 : List Char) : Option (List Char) :=
  let cleaned :=
    match cleaned0 with
    | c :: rest => if isLowerC c then upperChar c :: rest else c :: rest
    | [] => []
  if cleaned.length < 3 then
    if (reMatch0 false reCapsCode cleaned).isSome then some cleaned else none
  else some cleaned

/-- The TEXT-only structural cleanup (second half of _clean_extracted_value);
returns none when the value is rejected. -/
def clean_value_text (b : List Char) : Option (List Char) :=
  if connectiveWords.contains (String.mk (lowerL b)) then none
  else text_finish (text_transform b)

/-- Embedding of FieldExtractor._clean_extracted_value. -/
def clean_extracted_value (value : Option String) (field_type : String) : Option String :=
  match value with
  | none => none
  | some v =>
    if v.data.isEmpty then none
    else
      let b := clean_value_basic v.data
      if noisePhrases.contains (String.mk (lowerL b)) then none
      else if field_type = "TEXT" then (clean_value_text b).map String.mk
      else some (String.mk b)

/-! ## Normalization

Embedding of FieldExtractor._normalize_value (field_extractor.py, lines 993
to 1035).  The three DATE patterns and the CURRENCY pattern are deterministic
enough to be compiled to direct matchers; each is annotated with the Python
regex and follows its backtracking order exactly. -/

/-- Anchored test for \d{4}-\d{2}-\d{2} returning the matched ten characters. -/
def isoPrefixAt (l : List Char) : Option (List Char) :=
  match l with
  | y1 :: y2 :: y3 :: y4 :: h1 :: m1 :: m2 :: h2 :: d1 :: d2 :: _ =>
    if isDigitC y1 && isDigitC y2 && isDigitC y3 && isDigitC y4 && h1 = '-'
        && isDigitC m1 && isDigitC m2 && h2 = '-' && isDigitC d1 && isDigitC d2 then
      some [y1, y2, y3, y4, h1, m1, m2, h2, d1, d2]
    else none
  | _ => none

/-- Leftmost search for (\d{4})-(\d{2})-(\d{2}); the value is group 0. -/
def isoFindL : List Char → Option (List Char)
  | [] => none
  | c :: rest =>
    match isoPrefixAt (c :: rest) with
    | some m => some m
    | none => isoFindL rest

def take4digits : List Char → Option (List Char)
  | a :: b :: c :: d :: _ =>
    if isDigitC a && isDigitC b && isDigitC c && isDigitC d then some [a, b, c, d]
    else none
  | _ => none

/-- One-digit second group of the slash date pattern. -/
def slashG2one : List Char → Option (List Char × List Char)
  | a :: s :: r2 =>
    if isDigitC a && s = '/' then (take4digits r2).map (fun g3 => ([a], g3)) else none
  | _ => none

/-- Second and third groups of (\d{1,2})/(\d{1,2})/(\d{4}): the two-digit
day alternative is tried first (greedy bound), then the one-digit one. -/
def slashG2 (rest : List Char) : Option (List Char × List Char) :=
  match rest with
  | a :: b :: s :: r2 =>
    if isDigitC a && isDigitC b && s = '/' then
      match take4digits r2 with
      | some g3 => some ([a, b], g3)
      | none => slashG2one rest
    else slashG2one rest
  | _ => slashG2one rest

def slashAtOne : List Char → Option (List Char × List Char × List Char)
  | a :: s :: rest =>
    if isDigitC a && s = '/' then (slashG2 rest).map (fun p => ([a], p.1, p.2))
    else none
  | _ => none

/-- Anchored match of (\d{1,2})/(\d{1,2})/(\d{4}), groups in order. -/
def slashAt (l : List Char) : Option (List Char × List Char × List Char) :=
  match l with
  | a :: b :: s :: rest =>
    if isDigitC a && isDigitC b && s = '/' then
      match slashG2 rest with
      | some p => some ([a, b], p.1, p.2)
      | none => slashAtOne l
    else slashAtOne l
  | _ => slashAtOne l

/-- Leftmost search for the slash date pattern. -/
def slashFindL : List Char → Option (List Char × List Char × List Char)
  | [] => none
  | c :: rest =>
    match slashAt (c :: rest) with
    | some r => some r
    | none => slashFindL rest

/-- Month alternation of the long form pattern, in source order; no month
name is a prefix of another, so unordered overlap cannot occur. -/
def monthTable : List (String × Nat) :=
  [("January", 1), ("February", 2), ("March", 3), ("April", 4), ("May", 5),
   ("June", 6), ("July", 7), ("August", 8), ("September", 9), ("October", 10),
   ("November", 11), ("December", 12)]

def monthAtGo : List (String × Nat) → List Char → Option (Nat × List Char)
  | [], _ => none
  | (nm, num) :: rest, l =>
    if isPrefixOfCI nm.data l then some (num, l.drop nm.data.length)
    else monthAtGo rest l

/-- Require at least one whitespace character, skip the maximal run. -/
def spacesThen (l : List Char) : Option (List Char) :=
  match l with
  | c :: rest => if pyIsSpace c then some (rest.dropWhile pyIsSpace) else none
  | [] => none

/-- Parse \s+(\d{4}) after the optional comma was not taken. -/
def commaYearNo (l : List Char) : Option (List Char) :=
  match spacesThen l with
  | some r2 => take4digits r2
  | none => none

/-- Parse ,?\s+(\d{4}); the greedy optional comma is tried first. -/
def commaYear (l : List Char) : Option (List Char) :=
  match l with
  | c :: rest =>
    if c = ',' then
      match spacesThen rest with
      | some r2 =>
        match take4digits r2 with
        | some y => some y
        | none => commaYearNo (c :: rest)
      | none => commaYearNo (c :: rest)
    else commaYearNo (c :: rest)
  | [] => none

/-- Anchored match of (Month)\s+(\d{1,2}),?\s+(\d{4}) with IGNORECASE,
returning month number, day digits, year digits. -/
def longAt (l : List Char) : Option (Nat × List Char × List Char) :=
  match monthAtGo monthTable l with
  | none => none
  | some (mo, r1) =>
    match spacesThen r1 with
    | none => none
    | some r2 =>
      match r2 with
      | a :: b :: r3 =>
        if isDigitC a && isDigitC b then
          match commaYear r3 with
          | some y => some (mo, [a, b], y)
          | none =>
            match commaYear (b :: r3) with
            | some y => some (mo, [a], y)
            | none => none
        else if isDigitC a then
          match commaYear (b :: r3) with
          | some y => some (mo, [a], y)
          | none => none
        else none
      | _ => none

/-- Leftmost search for the long form date pattern. -/
def longFindL : List Char → Option (Nat × List Char × List Char)
  | [] => none
  | c :: rest =>
    match longAt (c :: rest) with
    | some r => some r
    | none => longFindL rest

def isLeapYear (y : Nat) : Bool := y % 4 = 0 && (y % 100 ≠ 0 || y % 400 = 0)

def daysInMonth (m y : Nat) : Nat :=
  if m = 2 then (if isLeapYear y then 29 else 28)
  else if m = 4 || m = 6 || m = 9 || m = 11 then 30
  else 31

def natDigitsL (n : Nat) : List Char := natDigitsGo (n + 1) n []

/-- strftime of a year month day triple in %Y-%m-%d format. -/
def fmtIso (y mo d : Nat) : List Char :=
  padZero 4 (natDigitsL y) ++ '-' :: padZero 2 (natDigitsL mo) ++ '-' :: padZero 2 (natDigitsL d)

/-- strptime validity of the captured long form triple followed by the
calendar check of the datetime constructor. -/
def strptimeOk (mo : Nat) (dayStr yearStr : List Char) : Bool :=
  let d := digitsToNat dayStr
  let y := digitsToNat yearStr
  1 ≤ d && d ≤ 31 && 1 ≤ y && d ≤ daysInMonth mo y

def digitCommaC (c : Char) : Bool := isDigitC c || c = ','

/-- Leftmost search for \$?([\d,]+\.?\d*), returning group 1: the optional
dollar sign is consumed when possible, the run of digits and commas is
maximal, then an optional dot and a maximal digit run. -/
def currencyFindL : List Char → Option (List Char)
  | [] => none
  | c :: rest =>
    if digitCommaC c then
      let run := (c :: rest).takeWhile digitCommaC
      let after := (c :: rest).dropWhile digitCommaC
      match after with
      | '.' :: r2 => some (run ++ '.' :: r2.takeWhile isDigitC)
      | _ => some run
    else if c = '$' then
      match rest with
      | d :: _ =>
        if digitCommaC d then
          let run := rest.takeWhile digitCommaC
          let after := rest.dropWhile digitCommaC
          match after with
          | '.' :: r2 => some (run ++ '.' :: r2.takeWhile isDigitC)
          | _ => some run
        else currencyFindL rest
      | [] => currencyFindL rest
    else currencyFindL rest

def affirmativeWords : List String := ["yes", "true", "agreed", "confirmed"]

def negativeWords : List String := ["no", "false", "denied", "rejected"]

/-- Embedding of FieldExtractor._normalize_value. -/
def normalize_value (value : Option String) (field_type : String) : Option String :=
  match value with
  | none => none
  | some v0 =>
    if v0.data.isEmpty then none
    else
      let v := pyStripL v0.data
      if field_type = "DATE" then
        match slashFindL v with
        | some (g1, g2, g3) =>
          some ⟨g3 ++ '-' :: (padZero 2 g1 ++ '-' :: padZero 2 g2)⟩
        | none =>
          match isoFindL v with
          | some m => some ⟨m⟩
          | none =>
            match longFindL v with
            | some (mo, dayStr, yearStr) =>
              if strptimeOk mo dayStr yearStr then
                some ⟨fmtIso (digitsToNat yearStr) mo (digitsToNat dayStr)⟩
              else some ⟨v⟩
            | none => some ⟨v⟩
      else if field_type = "CURRENCY" then
        match currencyFindL v with
        | some numStr => some ⟨"USD ".data ++ replaceAllL [','] [] numStr⟩
        | none => some ⟨v⟩
      else if field_type = "BOOLEAN" then
        let vl := lowerL v
        if affirmativeWords.any (fun w => containsSub w.data vl) then some "true"
        else if negativeWords.any (fun w => containsSub w.data vl) then some "false"
        else some ⟨v⟩
      else if field_type = "ENTITY" then
        some ⟨joinSpace ((splitWs v).map capitalizeL)⟩
      else some ⟨v⟩

/-- Embedding of FieldExtractor._validate_extraction (lines 1037 to 1070);
the DATE check is the anchored re.match of \d{4}-\d{2}-\d{2}, the CURRENCY
check is the containment of USD together with a successful search of
[\d,]+\.?\d*, which succeeds exactly when some digit or comma occurs. -/
def validate_extraction (extracted normalized : Option String) (field_type : String) : ℚ :=
  if !truthy extracted then 0
  else if !truthy normalized then mkRat 1 2
  else
    let n := (normalized.getD "").data
    if field_type = "DATE" then
      if (isoPrefixAt n).isSome then 1 else mkRat 3 5
    else if field_type = "CURRENCY" then
      if containsSub "USD".data n && n.any digitCommaC then 1 else mkRat 3 5
    else if field_type = "BOOLEAN" then
      if normalized = some "true" || normalized = some "false" then 1 else mkRat 1 2
    else 1

/-! ## Citation ranking

Embedding of FieldExtractor._find_citations (field_extractor.py, lines 940
to 991).  Chunk dictionaries become records of optional fields with the
same defaults as the Python dict.get calls. -/

structure ChunkIn where
  text : Option String
  page_number : Option Int
  section_name : Option String
deriving DecidableEq, Repr

structure Citation where
  citation_text : String
  page_number : Int
  section_title : String
  relevance_score : ℚ
  chunk_id : String
deriving DecidableEq, Repr

structure Scored where
  stext : String
  similarity : ℚ
  page : Int
  section_name : String
  chunk_id : String
deriving DecidableEq, Repr

/-- Token set of a lowercased whitespace split. -/
def tokenSet (l : List Char) : Finset (List Char) :=
  (splitWs (lowerL l)).toFinset

/-- Jaccard similarity with the containment boost of the Python code. -/
def chunkScore (query chunkText : List Char) : ℚ :=
  let qt := tokenSet query
  let ct := tokenSet chunkText
  let inter := (qt ∩ ct).card
  let un := (qt ∪ ct).card
  let sim := if 0 < un then mkRat inter un else 0
  if containsSub (lowerL query) (lowerL chunkText) then qMin 1 (qAdd sim (mkRat 3 10))
  else sim

/-- Stable descending insertion by similarity (list.sort with reverse=True). -/
def insertScoredDesc (x : Scored) : List Scored → List Scored
  | [] => [x]
  | y :: rest =>
    if Rat.blt y.similarity x.similarity then x :: y :: rest
    else y :: insertScoredDesc x rest

def sortScoredDesc : List Scored → List Scored
  | [] => []
  | x :: rest => insertScoredDesc x (sortScoredDesc rest)

/-- Embedding of FieldExtractor._find_citations. -/
def find_citations (query_text : String) (document_chunks : List ChunkIn)
    (top_k : Nat) : List Citation :=
  if query_text.data.isEmpty then []
  else
    let scored := document_chunks.enum.map (fun p =>
      let chunkText := (p.2.text.getD "")
      { stext := chunkText
        similarity := chunkScore query_text.data chunkText.data
        page := p.2.page_number.getD 1
        section_name := p.2.section_name.getD "Main"
        chunk_id := natToStr p.1 : Scored })
    let sorted := sortScoredDesc scored
    ((sorted.take top_k).filter (fun c => Rat.blt 0 c.similarity)).map (fun c =>
      { citation_text := ⟨c.stext.data.take 500⟩
        page_number := c.page
        section_title := c.section_name
        relevance_score := c.similarity
        chunk_id := c.chunk_id })

/-! ## Heuristic matcher

Embedding of FieldExtractor._get_patterns_for_field (lines 548 to 717) and
FieldExtractor._extract_with_heuristics (lines 466 to 546), together with
the two sentence helpers.  Every pattern of the catalog is transliterated
in source order with its confidence boost. -/

/-- Class [:\s] -/
def colonSpace : List CItem := [CItem.ch ':', CItem.space]

/-- Class [A-Za-z0-9\s,\-$().%] -/
def genCapItems : List CItem :=
  [CItem.range 'A' 'Z', CItem.range 'a' 'z', CItem.digit, CItem.space,
   CItem.ch ',', CItem.ch '-', CItem.ch '$', CItem.ch '(', CItem.ch ')',
   CItem.ch '.', CItem.ch '%']

/-- Class [A-Za-z0-9\s,\-$().%@] -/
def genCapAtItems : List CItem := genCapItems ++ [CItem.ch '@']

/-- Class [A-Za-z\s&.,] -/
def partyItems : List CItem :=
  [CItem.range 'A' 'Z', CItem.range 'a' 'z', CItem.space, CItem.ch '&',
   CItem.ch '.', CItem.ch ',']

/-- Class [A-Za-z0-9\s,./\-] -/
def effItems : List CItem :=
  [CItem.range 'A' 'Z', CItem.range 'a' 'z', CItem.digit, CItem.space,
   CItem.ch ',', CItem.ch '.', CItem.ch '/', CItem.ch '-']

/-- Class [A-Za-z\s] -/
def alphaSpaceItems : List CItem :=
  [CItem.range 'A' 'Z', CItem.range 'a' 'z', CItem.space]

/-- Class [A-Za-z\s,] -/
def alphaSpaceCommaItems : List CItem := alphaSpaceItems ++ [CItem.ch ',']

/-- Class [A-Za-z0-9\s] -/
def alnumSpaceItems : List CItem :=
  [CItem.range 'A' 'Z', CItem.range 'a' 'z', CItem.digit, CItem.space]

/-- Class [A-Za-z0-9\s,$] -/
def alnumSpaceCommaDollarItems : List CItem :=
  alnumSpaceItems ++ [CItem.ch ',', CItem.ch '$']

/-- Class [A-Za-z0-9,\s] -/
def datedItems : List CItem :=
  [CItem.range 'A' 'Z', CItem.range 'a' 'z', CItem.digit, CItem.ch ',', CItem.space]

/-- Terminator (?:[.;]|\n) -/
def endDotSemiNl : RE := ralt [rcls [CItem.ch '.', CItem.ch ';'], rlit "\n"]

/-- The common shape LABEL[:\s]+(CLASS+?)CLOSE with the capture as group 1. -/
def labelledPattern (label : RE) (items : List CItem) (close : RE) : RE :=
  rseq [label, rplus colonSpace, RE.grp 1 (RE.rep ⟨false, items⟩ 1 none true), close]

def rMonthsAlt : RE := ralt (monthTable.map (fun p => rlit p.1))

/-- Pattern (\d{1,2}/\d{1,2}/\d{4}) -/
def rePatSlashDate : RE :=
  RE.grp 1 (rseq [RE.rep ⟨false, digitI⟩ 1 (some 2) false, rlit "/",
                  RE.rep ⟨false, digitI⟩ 1 (some 2) false, rlit "/",
                  RE.rep ⟨false, digitI⟩ 4 (some 4) false])

/-- Pattern (\d{4}-\d{2}-\d{2}) -/
def rePatIsoDate : RE :=
  RE.grp 1 (rseq [RE.rep ⟨false, digitI⟩ 4 (some 4) false, rlit "-",
                  RE.rep ⟨false, digitI⟩ 2 (some 2) false, rlit "-",
                  RE.rep ⟨false, digitI⟩ 2 (some 2) false])

/-- Pattern (January|...|December)\s+\d{1,2},?\s+\d{4} -/
def rePatLongDate : RE :=
  rseq [RE.grp 1 rMonthsAlt, rplus spaceI, RE.rep ⟨false, digitI⟩ 1 (some 2) false,
        RE.opt (rlit ","), rplus spaceI, RE.rep ⟨false, digitI⟩ 4 (some 4) false]

/-- Pattern (?:dated|dated as of|as of)\s+([A-Za-z0-9,\s]+?\d{4}) -/
def rePatDatedAsOf : RE :=
  rseq [ralt [rlit "dated", rlit "dated as of", rlit "as of"], rplus spaceI,
        RE.grp 1 (rseq [RE.rep ⟨false, datedItems⟩ 1 none true,
                        RE.rep ⟨false, digitI⟩ 4 (some 4) false])]

/-- The static field-name keyed pattern catalog, if/elif chain in source
order; each entry is a pattern with its confidence boost. -/
def patterns_for_name (n : String) (field_type : String) : List (RE × ℚ) :=
  let hasSub (w : String) : Bool := containsSub w.data n.data
  if hasSub "date" || field_type = "DATE" then
    [(rePatSlashDate, mkRat 3 10), (rePatIsoDate, mkRat 3 10),
     (rePatLongDate, mkRat 4 10), (rePatDatedAsOf, mkRat 3 10)]
  else if hasSub "party" || hasSub "parties" then
    [(rseq [rlit "by and between", rplus spaceI,
            RE.grp 1 (rseq [rcls upAZ, RE.rep ⟨false, partyItems⟩ 1 none true]),
            rplus spaceI, ralt [rlit "and", rlit "AND"], rplus spaceI,
            RE.grp 2 (rseq [rcls upAZ, RE.rep ⟨false, partyItems⟩ 1 none false])],
      mkRat 4 10),
     (rseq [ralt [rlit "Between", rlit "BETWEEN", rlit "between"], rplus spaceI,
            RE.grp 1 (rseq [rcls upAZ, RE.rep ⟨false, partyItems⟩ 1 none true]),
            rplus spaceI, ralt [rlit "and", rlit "AND"]],
      mkRat 3 10),
     (rseq [ralt [rlit "Party", rlit "PARTY"], rlit ":", rstar spaceI,
            RE.grp 1 (rseq [rcls upAZ, RE.rep ⟨false, partyItems⟩ 1 none true]),
            ralt [rlit "\n", rlit ";"]],
      mkRat 4 10)]
  else if hasSub "effective" || hasSub "term" then
    [(rseq [ralt [rlit "effective", rlit "Effective", rlit "EFFECTIVE"],
            RE.opt (rseq [rplus spaceI, rlit "date"]), rplus colonSpace,
            RE.grp 1 (RE.rep ⟨false, effItems⟩ 1 none true),
            ralt [rcls [CItem.ch ',', CItem.ch ';'], rlit "and", rlit "on"]],
      mkRat 3 10),
     (labelledPattern (ralt [rlit "term", rlit "Term", rlit "TERM"]) effItems
        (ralt [rcls [CItem.ch ',', CItem.ch ';'], rlit "and", rlit "\n"]),
      mkRat 3 10),
     (labelledPattern (ralt [rlit "expire", rlit "expiration", rlit "expiry"]) effItems
        (ralt [rcls [CItem.ch ',', CItem.ch ';'], rlit "\n"]),
      mkRat 3 10)]
  else if hasSub "currency" || hasSub "amount" || field_type = "CURRENCY" then
    [(rseq [rlit "$", rplus [CItem.digit, CItem.ch ','], RE.opt (rlit "."),
            rstar digitI],
      mkRat 4 10),
     (rseq [RE.grp 1 (ralt [rlit "USD", rlit "EUR", rlit "GBP"]), rstar spaceI,
            rplus [CItem.digit, CItem.ch ','], RE.opt (rlit "."), rstar digitI],
      mkRat 3 10),
     (rseq [ralt [rlit "purchase price", rlit "consideration", rlit "price"],
            rplus colonSpace, RE.opt (rlit "$"),
            RE.grp 1 (rseq [rplus [CItem.digit, CItem.ch ','], RE.opt (rlit "."),
                            rstar digitI])],
      mkRat 4 10)]
  else if hasSub "governing law" || hasSub "law" then
    [(rseq [rlit "governed by the laws of", rplus spaceI,
            RE.grp 1 (RE.rep ⟨false, alphaSpaceItems⟩ 1 none true),
            ralt [rlit ".", rlit ";", rlit "\n"]],
      mkRat 4 10)]
  else if hasSub "confidential" then
    [(rseq [ralt [rlit "confidentiality", rlit "confidential"], rplus spaceI,
            RE.grp 1 (RE.rep ⟨false, genCapItems⟩ 1 none true), endDotSemiNl],
      mkRat 3 10)]
  else if hasSub "termination" || hasSub "terminate" then
    [(labelledPattern (ralt [rlit "termination", rlit "terminate"]) genCapItems
        endDotSemiNl, mkRat 3 10)]
  else if hasSub "indemn" then
    [(labelledPattern (ralt [rlit "indemnification", rlit "indemnify", rlit "indemnity"])
        genCapItems endDotSemiNl, mkRat 3 10)]
  else if hasSub "liable" || hasSub "liability" then
    [(labelledPattern (ralt [rlit "liability", rlit "Liability", rlit "LIABLE"])
        genCapItems (ralt [rcls [CItem.ch '.', CItem.ch ';'], rlit "and", rlit "as"]),
      mkRat 3 10)]
  else if hasSub "jurisdiction" || hasSub "venue" then
    [(labelledPattern (ralt [rlit "jurisdiction", rlit "venue"]) genCapItems
        endDotSemiNl, mkRat 3 10),
     (rseq [rlit "governed by the laws of", rplus spaceI,
            RE.grp 1 (RE.rep ⟨false, alphaSpaceItems⟩ 1 none false)],
      mkRat 4 10),
     (rseq [rlit "courts of", rplus spaceI,
            RE.grp 1 (RE.rep ⟨false, alphaSpaceCommaItems⟩ 1 none false),
            rplus spaceI, rlit "shall have"],
      mkRat 4 10),
     (rseq [rlit "submit to the", rdotStar, rlit "jurisdiction of", rplus spaceI,
            RE.grp 1 (RE.rep ⟨false, alphaSpaceCommaItems⟩ 1 none false)],
      mkRat 4 10)]
  else if hasSub "notice" then
    [(rseq [ralt [rlit "notice", rlit "Notice"], RE.opt (rlit "s"),
            rlit " shall be sent to", rplus colonSpace,
            RE.grp 1 (RE.rep ⟨false, genCapAtItems⟩ 1 none true), endDotSemiNl],
      mkRat 3 10),
     (rseq [rlit "Address for notices", RE.opt (rlit ":"), rstar spaceI,
            RE.grp 1 (RE.rep ⟨false, genCapAtItems ++ [CItem.ch '\n']⟩ 1 none false)],
      mkRat 3 10)]
  else if hasSub "assignment" then
    [(labelledPattern (ralt [rlit "assignment", rlit "assign"]) genCapItems
        endDotSemiNl, mkRat 3 10),
     (rseq [rlit "may not assign", rdotStar, rlit "without", rdotStar, rlit "consent"],
      mkRat 3 10)]
  else if hasSub "force majeure" then
    [(labelledPattern (rlit "force majeure") genCapItems endDotSemiNl, mkRat 3 10),
     (rseq [rlit "events beyond", rdotStar, rlit "control", rdotStar,
            rlit "including", rplus spaceI,
            RE.grp 1 (RE.rep ⟨false, genCapItems⟩ 1 none false)],
      mkRat 3 10)]
  else if hasSub "dispute" || hasSub "arbitration" then
    [(labelledPattern (ralt [rlit "dispute resolution", rlit "arbitration", rlit "mediation"])
        genCapItems endDotSemiNl, mkRat 3 10),
     (rseq [rlit "disputes shall be resolved by", rplus spaceI,
            RE.grp 1 (RE.rep ⟨false, alphaSpaceItems⟩ 1 none false)],
      mkRat 4 10)]
  else if hasSub "warranty" || hasSub "warranties" then
    [(labelledPattern (ralt [rlit "warranties", rlit "warranty"]) genCapItems
        endDotSemiNl, mkRat 3 10),
     (rseq [rlit "represents and warrants that", rplus spaceI,
            RE.grp 1 (RE.rep ⟨false, genCapItems⟩ 1 none false)],
      mkRat 3 10)]
  else if hasSub "exclusivity" || hasSub "exclusive" then
    [(labelledPattern (ralt [rlit "exclusivity", rlit "exclusive"]) genCapItems
        endDotSemiNl, mkRat 3 10)]
  else if hasSub "change of control" then
    [(labelledPattern (rlit "change of control") genCapItems endDotSemiNl, mkRat 3 10)]
  else if hasSub "amendment" || hasSub "modification" then
    [(labelledPattern (ralt [rlit "amendment", rlit "modification"]) genCapItems
        endDotSemiNl, mkRat 3 10)]
  else if hasSub "severability" then
    [(labelledPattern (rlit "severability") genCapItems endDotSemiNl, mkRat 3 10)]
  else if hasSub "waiver" then
    [(labelledPattern (rlit "waiver") genCapItems endDotSemiNl, mkRat 3 10)]
  else if hasSub "survival" then
    [(labelledPattern (rlit "survival") genCapItems endDotSemiNl, mkRat 3 10)]
  else if hasSub "entire agreement" then
    [(labelledPattern (rlit "entire agreement") genCapItems endDotSemiNl, mkRat 3 10)]
  else if hasSub "audit" then
    [(labelledPattern (ralt [rseq [rlit "audit right", RE.opt (rlit "s")],
                             rlit "right to audit"]) genCapItems endDotSemiNl,
      mkRat 3 10),
     (labelledPattern (rlit "Audit Policy") genCapItems endDotSemiNl, mkRat 4 10),
     (rseq [rlit "keep", rdotStar, rlit "books and records", rdotStar,
            rlit "for a period of", rplus spaceI,
            RE.grp 1 (RE.rep ⟨false, alnumSpaceItems⟩ 1 none false)],
      mkRat 3 10)]
  else if hasSub "insurance" then
    [(labelledPattern (rlit "insurance") genCapItems endDotSemiNl, mkRat 3 10),
     (rseq [rlit "maintain", rdotStar, rlit "insurance", rdotStar, rlit "coverage",
            rdotStar, rlit "of at least", rplus spaceI,
            RE.grp 1 (RE.rep ⟨false, alnumSpaceCommaDollarItems⟩ 1 none false)],
      mkRat 3 10)]
  else if hasSub "liability cap" || hasSub "cap" then
    [(labelledPattern (ralt [rlit "aggregate liability", rlit "liability cap"])
        genCapItems endDotSemiNl, mkRat 3 10),
     (rseq [rlit "liability", rdotStar, rlit "shall not exceed", rplus spaceI,
            RE.grp 1 (RE.rep ⟨false, alnumSpaceCommaDollarItems⟩ 1 none false)],
      mkRat 4 10)]
  else if hasSub "data privacy" || hasSub "privacy" then
    [(labelledPattern (ralt [rlit "data privacy", rlit "data protection"])
        genCapItems endDotSemiNl, mkRat 3 10)]
  else if hasSub "non-solicitation" || hasSub "solicit" then
    [(labelledPattern (ralt [rlit "non-solicitation", rlit "solicitation"])
        genCapItems endDotSemiNl, mkRat 3 10),
     (rseq [rlit "shall not", rdotStar, rlit "solicit", rdotStar, rlit "employees"],
      mkRat 3 10)]
  else if hasSub "non-compete" || hasSub "compete" then
    [(labelledPattern (ralt [rlit "non-compete", rlit "non-competition"])
        genCapItems endDotSemiNl, mkRat 3 10)]
  else if hasSub "subcontract" then
    [(labelledPattern (ralt [rlit "subcontracting", rlit "subcontract"])
        genCapItems endDotSemiNl, mkRat 3 10)]
  else if hasSub "intellectual property" || hasSub "ip rights" then
    [(labelledPattern (ralt [rlit "intellectual property", rlit "ip rights"])
        genCapItems endDotSemiNl, mkRat 3 10),
     (rseq [rlit "owns all right, title and interest in", rdotStar,
            rlit "intellectual property"],
      mkRat 3 10)]
  else if hasSub "publicity" then
    [(labelledPattern (rlit "publicity") genCapItems endDotSemiNl, mkRat 3 10)]
  else if hasSub "counterparts" then
    [(labelledPattern (rlit "counterparts") genCapItems endDotSemiNl, mkRat 3 10)]
  else []

/-- Generic pattern appended for every truthy alias:
(?:ALIAS)[:\s]+([A-Za-z0-9\s,\-$().%]+?)(?:[.;]|\n|and) -/
def aliasPattern (al : String) : RE :=
  rseq [RE.lit al.data, rplus colonSpace,
        RE.grp 1 (RE.rep ⟨false, genCapItems⟩ 1 none true),
        ralt [rcls [CItem.ch '.', CItem.ch ';'], rlit "\n", rlit "and"]]

/-- Embedding of FieldExtractor._get_patterns_for_field. -/
def get_patterns_for_field (field_name : String) (field_type : String)
    (aliases : List String) : List (RE × ℚ) :=
  let n := String.mk (lowerL field_name.data)
  patterns_for_name n field_type ++
    aliases.filterMap (fun al =>
      if al.data.isEmpty then none else some (aliasPattern al, mkRat 2 10))

/-- Whether a pattern declares capture groups (Python match.groups() test). -/
def reHasGroups : RE → Bool
  | .grp _ _ => true
  | .seqb a b => reHasGroups a || reHasGroups b
  | .altb a b => reHasGroups a || reHasGroups b
  | .opt r => reHasGroups r
  | _ => false

/-- An extraction candidate record: value, supporting raw text, confidence. -/
structure Candidate where
  value : Option String
  raw_text : Option String
  confidence : ℚ
deriving DecidableEq, Repr

def findIdxFrom (c : Char) (l : List Char) (start : Nat) : Option Nat :=
  ((l.enum.drop start).find? (fun p => p.2 = c)).map (fun p => p.1)

def lastIdxBefore (c : Char) (l : List Char) (stop : Nat) : Option Nat :=
  (((l.enum.take stop).filter (fun p => p.2 = c)).map (fun p => p.1)).getLast?

/-- Embedding of FieldExtractor._sentence_at_position. -/
def sentence_at_position (text : List Char) (pos : Nat) : Option (List Char) :=
  if pos < text.length then
    let endIdx :=
      match findIdxFrom '.' text pos with
      | some e => e
      | none => min text.length (pos + 300)
    let start :=
      match lastIdxBefore '.' text pos with
      | some s => s + 1
      | none => 0
    let sentence := pyStripL (sliceL text start endIdx)
    if sentence.isEmpty then none else some (sentence.take 400)
  else none

/-- Pattern ([^.]*\b ALIAS \b[^.]*\.) used with IGNORECASE. -/
def reSentAlias (al : String) : RE :=
  RE.grp 1 (rseq [rstarN [CItem.ch '.'], RE.bnd, RE.lit al.data, RE.bnd,
                  rstarN [CItem.ch '.'], rlit "."])

/-- Embedding of FieldExtractor._find_sentence_by_alias. -/
def find_sentence_by_alias (text : List Char) : List String → Option (List Char)
  | [] => none
  | al :: rest =>
    if al.data.isEmpty then find_sentence_by_alias text rest
    else
      match reSearch true (reSentAlias al) text with
      | some m => grpStr text m 1
      | none => find_sentence_by_alias text rest

/-- The inner finditer loop of the pattern stage: the first match whose
cleaned value is truthy yields the candidate. -/
def heurFromMatches (text : List Char) (field_type : String) (boost : ℚ)
    (hasGrps : Bool) : List RMatch → Option Candidate
  | [] => none
  | m :: rest =>
    let extracted0 : Option String :=
      if hasGrps then (grpStr text m 1).map (fun l => ⟨l⟩)
      else some ⟨matchStr text m⟩
    let extracted := clean_extracted_value extracted0 field_type
    if !truthy extracted then heurFromMatches text field_type boost hasGrps rest
    else
      let extractedVal := (extracted.getD "").data
      let widened :=
        if field_type = "TEXT" && extractedVal.length < 20 then
          match sentence_at_position text m.rstart with
          | some s => pyStripL s
          | none => extractedVal
        else extractedVal
      let context := sliceL text (m.rstart - 300) (min text.length (m.rstop + 300))
      some { value := some ⟨pyStripL widened⟩
             raw_text := some ⟨pyStripL context⟩
             confidence := qMin 1 (qAdd (mkRat 3 5) boost) }

def heurPatternsLoop (text : List Char) (field_type : String) :
    List (RE × ℚ) → Option Candidate
  | [] => none
  | (pat, boost) :: rest =>
    match heurFromMatches text field_type boost (reHasGroups pat) (reFindAll true pat text) with
    | some c => some c
    | none => heurPatternsLoop text field_type rest

/-- Pattern ALIAS\s*(?:[:\-]|is|means)?\s*(.+) used with IGNORECASE. -/
def reAliasWindow (al : String) : RE :=
  rseq [RE.lit al.data, rstar spaceI,
        RE.opt (ralt [rcls [CItem.ch ':', CItem.ch '-'], rlit "is", rlit "means"]),
        rstar spaceI, RE.grp 1 (RE.rep ⟨true, dotItems⟩ 1 none false)]

def heurAliasLoop (text : List Char) (field_type : String) :
    List String → Option Candidate
  | [] => none
  | al :: rest =>
    if al.data.isEmpty then heurAliasLoop text field_type rest
    else
      match reSearch true (reAliasWindow al) text with
      | none => heurAliasLoop text field_type rest
      | some m =>
        let g1 := (grpStr text m 1).getD []
        let ev0 := (g1.takeWhile (fun c => c ≠ '\n')).take 500
        let extracted := clean_extracted_value (some ⟨ev0⟩) field_type
        if !truthy extracted then heurAliasLoop text field_type rest
        else
          let context := sliceL text (m.rstart - 300) (min text.length (m.rstop + 300))
          some { value := some ⟨pyStripL (extracted.getD "").data⟩
                 raw_text := some ⟨pyStripL context⟩
                 confidence := mkRat 2 5 }

/-- Derived alias list: every truthy alias plus its underscore-to-space
variant. -/
def derivedAliases (aliases : List String) : List String :=
  aliases.foldl (fun acc al =>
    if al.data.isEmpty then acc
    else acc ++ [al] ++
      (if al.data.contains '_' then [⟨replaceAllL ['_'] [' '] al.data⟩] else [])) []

/-- Embedding of FieldExtractor._extract_with_heuristics.  The chunk list
parameter is accepted and unused, as in the source. -/
def extract_with_heuristics (document_text : String) (document_chunks : List ChunkIn)
    (field_name field_type display_name : String) : Candidate :=
  let _ := document_chunks
  let derived := derivedAliases [field_name, display_name]
  let patterns := get_patterns_for_field field_name field_type derived
  let text := document_text.data
  match heurPatternsLoop text field_type patterns with
  | some c => c
  | none =>
    match heurAliasLoop text field_type derived with
    | some c => c
    | none =>
      match find_sentence_by_alias text derived with
      | some sm =>
        let extracted := clean_extracted_value (some ⟨sm⟩) field_type
        if truthy extracted then
          { value := some ⟨pyStripL (extracted.getD "").data⟩
            raw_text := some ⟨pyStripL sm⟩
            confidence := mkRat 7 20 }
        else { value := none, raw_text := none, confidence := 0 }
      | none => { value := none, raw_text := none, confidence := 0 }

/-- Specification-side shape predicate: a string of exactly the form
YYYY-MM-DD (four digits, dash, two digits, dash, two digits).  Stated
independently of the embedded matchers, from the words of the spec. -/
def isIsoShaped (l : List Char) : Bool :=
  match l with
  | [y1, y2, y3, y4, h1, m1, m2, h2, d1, d2] =>
    isDigitC y1 && isDigitC y2 && isDigitC y3 && isDigitC y4 && h1 = '-'
      && isDigitC m1 && isDigitC m2 && h2 = '-' && isDigitC d1 && isDigitC d2
  | _ => false

/-! ## The per-field extraction pipeline

Embedding of FieldExtractor._extract_single_field (lines 111 to 231) and
FieldExtractor.extract_fields (lines 63 to 109).  The provider cascade of
steps 1 to 3 (Groq, Gemini, generic client) consists of network calls; its
outcome is the tier candidate, passed as an explicit input.  A raised
exception escaping into the per-field try block is modelled by the error
case of `Except`, which the embedded code converts into the null record of
the Python except branch.  The extraction_metadata dictionary (method tag
and wall-clock timestamp) is not modelled. -/

/-- The noise phrase list of the cascade fallback check (line 167). -/
def pipelineNoise : List String :=
  ["n/a", "none", "not found", "no information found", "unknown",
   "not specified", "not stated"]

structure ExtractionOut where
  field_name : String
  field_type : String
  extracted_value : Option String
  raw_text : Option String
  normalized_value : Option String
  confidence_score : ℚ
  citations : List Citation
  error : Option String
deriving DecidableEq, Repr

/-- The cascade fallback check of lines 163 to 181: a tier value that is
empty, a noise phrase, or carries confidence below 0.1 hands over to the
heuristic matcher, whose candidate wins only when it found a value. -/
def after_fallback (tierRes : Candidate) (document_text : String)
    (document_chunks : List ChunkIn) (field_name field_type display_name : String) :
    Candidate :=
  let raw_val := tierRes.value
  let is_noise :=
    match raw_val with
    | some s => pipelineNoise.contains ⟨rstripSet ['.'] (pyStripL (lowerL s.data))⟩
    | none => false
  let useHeur := !truthy raw_val || is_noise || Rat.blt tierRes.confidence (mkRat 1 10)
  if useHeur then
    let h := extract_with_heuristics document_text document_chunks
               field_name field_type display_name
    if truthy h.value then h else tierRes
  else tierRes

/-- Lines 183 to 219: clean the winning value, locate citations from the raw
text (or the cleaned value), normalize, validate, and clamp the product of
tier confidence and validation factor. -/
def finalize_extraction (afterHeur : Candidate) (document_chunks : List ChunkIn)
    (field_name field_type : String) : ExtractionOut :=
  let extracted_value := clean_extracted_value afterHeur.value field_type
  let raw_text := afterHeur.raw_text
  let confidence := afterHeur.confidence
  let citations :=
    find_citations (orTruthy raw_text (orTruthy extracted_value "")) document_chunks 3
  let normalized_value := normalize_value extracted_value field_type
  let validation_score := validate_extraction extracted_value normalized_value field_type
  let final_confidence := qMin 1 (qMul confidence validation_score)
  { field_name := field_name, field_type := field_type
    extracted_value := extracted_value, raw_text := raw_text
    normalized_value := normalized_value, confidence_score := final_confidence
    citations := citations, error := none }

/-- Embedding of FieldExtractor._extract_single_field given the provider
cascade outcome. -/
def extract_single_field (tier : Except String Candidate) (document_text : String)
    (document_chunks : List ChunkIn) (field_name field_type display_name : String)
    (document_id : String) : ExtractionOut :=
  let _ := document_id
  match tier with
  | .error e =>
    { field_name := field_name, field_type := field_type, extracted_value := none
      raw_text := none, normalized_value := none, confidence_score := 0
      citations := [], error := some e }
  | .ok tierRes =>
    finalize_extraction (after_fallback tierRes document_text document_chunks
        field_name field_type display_name)
      document_chunks field_name field_type

structure FieldDef where
  name : Option String
  display_name : Option String
  field_type : Option String
  description : Option String
deriving DecidableEq, Repr

def fieldNameOf (fd : FieldDef) : String := orTruthy fd.name (orTruthy fd.display_name "")

def fieldTypeOf (fd : FieldDef) : String := ⟨upperL (fd.field_type.getD "TEXT").data⟩

def displayNameOf (fd : FieldDef) : String := fd.display_name.getD ""

/-- Embedding of FieldExtractor.extract_fields: one extraction per field
definition, in order; `tierOf` gives each field its provider cascade
outcome. -/
def extract_fields (tierOf : FieldDef → Except String Candidate)
    (document_text : String) (document_chunks : List ChunkIn)
    (field_definitions : List FieldDef) (document_id : String) : List ExtractionOut :=
  field_definitions.map (fun fd =>
    extract_single_field (tierOf fd) document_text document_chunks
      (fieldNameOf fd) (fieldTypeOf fd) (displayNameOf fd) document_id)

/-! ## Chunker

Embedding of DocumentChunker (document_parser.py, lines 207 to 302). -/

structure Chunk where
  text : String
  page_number : Nat
  section_name : String
  word_count : Nat
deriving DecidableEq, Repr

/-- Splitter state machine for re.split with the pattern
(?<=[.!?])\s+ : a whitespace run preceded by a sentence mark separates; the
boolean records being inside a separator run. -/
def splitSentGo : Bool → List Char → List (List Char) → List Char → List (List Char)
  | _, cur, acc, [] => (cur.reverse :: acc).reverse
  | sep, cur, acc, c :: rest =>
    if sep && pyIsSpace c then splitSentGo true cur acc rest
    else if pyIsSpace c && (match cur with
        | p :: _ => p = '.' || p = '!' || p = '?'
        | [] => false) then
      splitSentGo true [] (cur.reverse :: acc) rest
    else splitSentGo false (c :: cur) acc rest

/-- Embedding of DocumentChunker._split_sentences. -/
def split_sentences (text : List Char) : List (List Char) :=
  ((splitSentGo false [] [] text).map pyStripL).filter (fun s => !s.isEmpty)

/-- Embedding of DocumentChunker._estimate_page. -/
def estimate_page (sentence_index total_sentences : Nat) : Nat :=
  max 1 ((sentence_index * 100) / max 1 total_sentences)

/-- Python str.split on a separator character, empty pieces kept. -/
def splitOnChar (sep : Char) : List Char → List (List Char)
  | [] => [[]]
  | c :: rest =>
    match splitOnChar sep rest with
    | h :: t => if c = sep then [] :: h :: t else (c :: h) :: t
    | [] => [[c]]

/-- Embedding of DocumentChunker._detect_section. -/
def detect_section (text : List Char) : String :=
  let lines := (splitOnChar '\n' text).take 3
  let rec go : List (List Char) → String
    | [] => "Main"
    | ln :: rest =>
      let line := pyStripL ln
      if !line.isEmpty && line.length < 50 && isUpperStr line then ⟨line⟩
      else if !line.isEmpty && line.contains ':' then ⟨line.take 50⟩
      else go rest
  go lines

/-- The backward overlap scan: sentences are re-included from the end of the
closed chunk until the running word count exceeds the overlap; input is the
reversed chunk, output is the overlap in original order with its count. -/
def overlapGo (overlap : Nat) (count : Nat) : List (List Char) → List (List Char) × Nat
  | [] => ([], count)
  | s :: rest =>
    let w := (splitWs s).length
    let c2 := count + w
    if overlap < c2 then ([s], c2)
    else
      let (pre, cf) := overlapGo overlap c2 rest
      (pre ++ [s], cf)

def mkChunk (sentences : List (List Char)) (page : Nat) : Chunk :=
  let chunkText := joinSpace sentences
  { text := ⟨chunkText⟩
    page_number := page
    section_name := detect_section chunkText
    word_count := (splitWs chunkText).length }

/-- The accumulation loop of DocumentChunker.chunk. -/
def chunkGo (chunk_size overlap total : Nat) :
    Nat → List (List Char) → List Chunk → List (List Char) → Nat → List Chunk
  | _, [], acc, current, _ =>
    acc ++ (if current.isEmpty then [] else [mkChunk current 1])
  | i, s :: rest, acc, current, count =>
    let w := (splitWs s).length
    if chunk_size < count + w && !current.isEmpty then
      let newChunk := mkChunk current (estimate_page i total)
      let (ovr, wc) := overlapGo overlap 0 current.reverse
      chunkGo chunk_size overlap total (i + 1) rest (acc ++ [newChunk]) (ovr ++ [s]) (wc + w)
    else chunkGo chunk_size overlap total (i + 1) rest acc (current ++ [s]) (count + w)

/-- Embedding of DocumentChunker.chunk with the constructor parameters
chunk_size and overlap. -/
def chunker_chunk (chunk_size overlap : Nat) (text : String) : List Chunk :=
  let sentences := split_sentences text.data
  chunkGo chunk_size overlap sentences.length 0 sentences [] [] 0

/-- Total word count of a sentence list (specification-side measure). -/
def sumWords (ss : List (List Char)) : Nat :=
  (ss.map (fun s => (splitWs s).length)).sum

/-! ## Diff engine

Embedding of the per-field computation of DiffService.compute_diff
(service_orchestrator.py, lines 771 to 866): value grouping, majority
election, outlier list.  The pairwise SequenceMatcher similarity matrix is
not referenced by the verified properties and is not modelled. -/

structure ExtRecord where
  document_id : String
  normalized_value : Option String
  extracted_value : Option String
  confidence_score : ℚ
deriving DecidableEq, Repr

structure Outlier where
  document : String
  value : String
  document_id : String
  confidence : ℚ
deriving DecidableEq, Repr

structure FieldDiff where
  is_unanimous : Bool
  majority_value : String
  majority_count : Nat
  total_documents : Nat
  unique_values : Nat
  value_groups : List (String × List String)
  outliers : List Outlier
deriving DecidableEq, Repr

/-- doc_name_map.get with the document id as default. -/
def docLabelOf (docNameMap : List (String × String)) (docId : String) : String :=
  match docNameMap.lookup docId with
  | some nm => nm
  | none => docId

/-- The grouped value of one extraction:
(normalized_value or extracted_value or N/A).strip(). -/
def extVal (e : ExtRecord) : String :=
  ⟨pyStripL (orTruthy e.normalized_value (orTruthy e.extracted_value "N/A")).data⟩

/-- Append a document to its value group, creating the group at the end on
first encounter (insertion-ordered dict of lists). -/
def insertGroup : List (String × List String) → String → String → List (String × List String)
  | [], v, d => [(v, [d])]
  | (v0, ds) :: rest, v, d =>
    if v0 = v then (v0, ds ++ [d]) :: rest
    else (v0, ds) :: insertGroup rest v d

def valueGroupsOf (docNameMap : List (String × String)) (exts : List ExtRecord) :
    List (String × List String) :=
  exts.foldl (fun acc e => insertGroup acc (extVal e) (docLabelOf docNameMap e.document_id)) []

/-- Insertion-ordered dict assignment (existing keys keep their slot). -/
def upsert : List (String × (String × ℚ × String)) → String → String × ℚ × String →
    List (String × (String × ℚ × String))
  | [], k, v => [(k, v)]
  | (k0, v0) :: rest, k, v =>
    if k0 = k then (k0, v) :: rest else (k0, v0) :: upsert rest k v

def docValuesOf (docNameMap : List (String × String)) (exts : List ExtRecord) :
    List (String × (String × ℚ × String)) :=
  exts.foldl (fun acc e =>
    upsert acc (docLabelOf docNameMap e.document_id)
      (extVal e, e.confidence_score, e.document_id)) []

/-- Python max over dict keys with a size key: the first maximal element in
iteration order wins ties. -/
def maxByFirstGo (best : String × List String) :
    List (String × List String) → String × List String
  | [] => best
  | g :: rest => maxByFirstGo (if best.2.length < g.2.length then g else best) rest

def majorityOf : List (String × List String) → Option (String × List String)
  | [] => none
  | g :: rest => some (maxByFirstGo g rest)

/-- Embedding of the per-field body of DiffService.compute_diff; none on an
empty extraction list (where the Python max call cannot be reached). -/
def compute_field_diff (docNameMap : List (String × String)) (field_exts : List ExtRecord) :
    Option FieldDiff :=
  let groups := valueGroupsOf docNameMap field_exts
  let docVals := docValuesOf docNameMap field_exts
  match majorityOf groups with
  | none => none
  | some maj =>
    let majority_value := maj.1
    let majority_count := maj.2.length
    let total_docs := (groups.map (fun g => g.2.length)).sum
    let is_unanimous := groups.length = 1
    let outliers :=
      if is_unanimous then []
      else
        (groups.filter (fun g => g.1 ≠ majority_value)).flatMap (fun g =>
          g.2.map (fun d =>
            let info := (docVals.lookup d).getD ("", 0, "")
            { document := d, value := g.1
              document_id := info.2.2, confidence := info.2.1 : Outlier }))
    some { is_unanimous := is_unanimous
           majority_value := majority_value
           majority_count := majority_count
           total_documents := total_docs
           unique_values := groups.length
           value_groups := groups
           outliers := outliers }

/-- Prefix form of the canonical date shape: the string begins with
YYYY-MM-DD (the anchored re.match test of the validation step). -/
def isIsoPrefixShaped (l : List Char) : Bool :=
  match l with
  | y1 :: y2 :: y3 :: y4 :: h1 :: m1 :: m2 :: h2 :: d1 :: d2 :: _ =>
    isDigitC y1 && isDigitC y2 && isDigitC y3 && isDigitC y4 && h1 = '-'
      && isDigitC m1 && isDigitC m2 && h2 = '-' && isDigitC d1 && isDigitC d2
  | _ => false

/-- The concrete pipeline run refuting the citation clause of C1: the tier
candidate carries the noise value unknown together with supporting raw text,
the heuristic backstop finds nothing, and the cleaned value becomes null
while the raw text still drives the citation search. -/
def c1Run : ExtractionOut :=
  extract_single_field
    (Except.ok { value := some "unknown", raw_text := some "Hello world.", confidence := mkRat 9 10 })
    "Nothing here." [{ text := some "Hello world.", page_number := none, section_name := none }]
    "zzz" "TEXT" "" "doc1"

/-- The concrete heuristic run of the C8 scenario. -/
def c8Run : Candidate :=
  extract_with_heuristics "This agreement is effective as of January 15, 2024." []
    "effective_date" "DATE" ""

/-! ## Theorems -/

theorem isoPrefixAt_isSome (l : List Char) :
    (isoPrefixAt l).isSome = isIsoPrefixShaped l := by
  rcases l with _ | ⟨y1, _ | ⟨y2, _ | ⟨y3, _ | ⟨y4, _ | ⟨h1, _ | ⟨m1, _ | ⟨m2, _ | ⟨h2, _ | ⟨d1, _ | ⟨d2, rest⟩⟩⟩⟩⟩⟩⟩⟩⟩⟩ <;>
    first
      | rfl
      | (simp only [isoPrefixAt, isIsoPrefixShaped]
         split <;> simp_all)

/-- C5, corrected: normalizing the ambiguous BOOLEAN value maybe returns the
value itself, not null; neither keyword set matches it. -/
theorem claim_C5_counterexample :
    normalize_value (some "maybe") "BOOLEAN" = some "maybe" ∧
    (affirmativeWords.any (fun w => containsSub w.data (lowerL (pyStripL "maybe".data)))) = false ∧
    (negativeWords.any (fun w => containsSub w.data (lowerL (pyStripL "maybe".data)))) = false ∧
    normalize_value (some "maybe") "BOOLEAN" ≠ none := by decide

/-- C5 (amended): for every non-empty BOOLEAN value, an affirmative keyword
substring yields true, otherwise a negative keyword substring yields false,
and text containing neither keyword set is returned stripped but otherwise
unchanged (not null). -/
theorem claim_C5 (v : String) (hv : v.data.isEmpty = false) :
    (affirmativeWords.any (fun w => containsSub w.data (lowerL (pyStripL v.data))) = true →
      normalize_value (some v) "BOOLEAN" = some "true") ∧
    (affirmativeWords.any (fun w => containsSub w.data (lowerL (pyStripL v.data))) = false →
      negativeWords.any (fun w => containsSub w.data (lowerL (pyStripL v.data))) = true →
      normalize_value (some v) "BOOLEAN" = some "false") ∧
    (affirmativeWords.any (fun w => containsSub w.data (lowerL (pyStripL v.data))) = false →
      negativeWords.any (fun w => containsSub w.data (lowerL (pyStripL v.data))) = false →
      normalize_value (some v) "BOOLEAN" = some ⟨pyStripL v.data⟩) := by
  refine ⟨fun ha => ?_, fun ha hn => ?_, fun ha hn => ?_⟩
  · unfold normalize_value
    simp [hv, ha]
  · unfold normalize_value
    simp [hv, ha, hn]
  · unfold normalize_value
    simp [hv, ha, hn]

/-- Closed instance of claim_C5 at the value Yes, agreed. -/
theorem claim_C5_witness :
    normalize_value (some "Yes, agreed") "BOOLEAN" = some "true" :=
  (claim_C5 "Yes, agreed" (by decide)).1 (by decide)

/-- C6, corrected: a BOOLEAN extraction whose normalized value is neither
true nor false receives the multiplier one half, not three fifths; and a
whitespace-only TEXT value receives one half, not one. -/
theorem claim_C6_counterexample :
    validate_extraction (some "maybe") (some "maybe") "BOOLEAN" = mkRat 1 2 ∧
    ¬ validate_extraction (some "maybe") (some "maybe") "BOOLEAN" = mkRat 3 5 ∧
    validate_extraction (some " ") (normalize_value (some " ") "TEXT") "TEXT" = mkRat 1 2 ∧
    ¬ validate_extraction (some " ") (normalize_value (some " ") "TEXT") "TEXT" = 1 := by
  decide

/-- C6 (amended): the validation multipliers are 0 for a missing or empty
extracted value; one half for a missing or empty normalized value; for DATE
1 exactly when the normalized value begins with the shape YYYY-MM-DD and
three fifths otherwise; for CURRENCY 1 exactly when it contains USD and some
digit or comma, and three fifths otherwise; for BOOLEAN 1 exactly when it is
the token true or false, and one half otherwise; 1 for all other field
types; and the product with a nonnegative tier confidence, clamped by
min with 1, lies in the interval from 0 to 1. -/
theorem claim_C6 (conf : ℚ) (hconf : 0 ≤ conf) (e n : Option String) (t : String) :
    (truthy e = false → validate_extraction e n t = 0) ∧
    (truthy e = true → truthy n = false → validate_extraction e n t = mkRat 1 2) ∧
    (truthy e = true → truthy n = true → t = "DATE" →
      validate_extraction e n t =
        (if isIsoPrefixShaped (n.getD "").data then 1 else mkRat 3 5)) ∧
    (truthy e = true → truthy n = true → t = "CURRENCY" →
      validate_extraction e n t =
        (if containsSub "USD".data (n.getD "").data && (n.getD "").data.any digitCommaC
         then 1 else mkRat 3 5)) ∧
    (truthy e = true → truthy n = true → t = "BOOLEAN" →
      validate_extraction e n t =
        (if n = some "true" || n = some "false" then 1 else mkRat 1 2)) ∧
    (truthy e = true → truthy n = true → t ≠ "DATE" → t ≠ "CURRENCY" → t ≠ "BOOLEAN" →
      validate_extraction e n t = 1) ∧
    (0 ≤ qMin 1 (qMul conf (validate_extraction e n t)) ∧
      qMin 1 (qMul conf (validate_extraction e n t)) ≤ 1) := by
  have h12 : mkRat 1 2 = (1 : ℚ)/2 := Rat.mkRat_eq_div 1 2
  have h35 : mkRat 3 5 = (3 : ℚ)/5 := Rat.mkRat_eq_div 3 5
  have hcases : validate_extraction e n t = 0 ∨ validate_extraction e n t = mkRat 1 2 ∨
      validate_extraction e n t = mkRat 3 5 ∨ validate_extraction e n t = 1 := by
    unfold validate_extraction
    dsimp only
    split
    · exact Or.inl rfl
    split
    · exact Or.inr (Or.inl rfl)
    split
    · split
      · exact Or.inr (Or.inr (Or.inr rfl))
      · exact Or.inr (Or.inr (Or.inl rfl))
    split
    · split
      · exact Or.inr (Or.inr (Or.inr rfl))
      · exact Or.inr (Or.inr (Or.inl rfl))
    split
    · split
      · exact Or.inr (Or.inr (Or.inr rfl))
      · exact Or.inr (Or.inl rfl)
    · exact Or.inr (Or.inr (Or.inr rfl))
  have hval01 : 0 ≤ validate_extraction e n t ∧ validate_extraction e n t ≤ 1 := by
    rcases hcases with h | h | h | h <;> rw [h] <;> constructor <;> norm_num [h12, h35]
  refine ⟨fun he => ?_, fun he hn => ?_, fun he hn ht => ?_, fun he hn ht => ?_,
          fun he hn ht => ?_, fun he hn h1 h2 h3 => ?_, ?_⟩
  · unfold validate_extraction
    simp [he]
  · unfold validate_extraction
    simp [he, hn]
  · subst ht
    unfold validate_extraction
    simp [he, hn, isoPrefixAt_isSome]
  · subst ht
    unfold validate_extraction
    simp [he, hn]
  · subst ht
    unfold validate_extraction
    simp [he, hn]
  · unfold validate_extraction
    simp [he, hn, h1, h2, h3]
  · constructor
    · rw [qMin_eq, qMul_eq]
      exact le_min (by norm_num) (mul_nonneg hconf hval01.1)
    · rw [qMin_eq, qMul_eq]
      exact min_le_left _ _

/-- Closed instance of claim_C6 at a canonical DATE normalization. -/
theorem claim_C6_witness :
    validate_extraction (some "Jan 15, 2024") (some "2024-01-15") "DATE" = 1 := by
  have h := (claim_C6 1 (by norm_num) (some "Jan 15, 2024") (some "2024-01-15") "DATE").2.2.1
    (by decide) (by decide) rfl
  rw [h]
  decide

/-- C8, corrected: on the scenario text the heuristic matcher returns the
captured month token January, which contains neither the full matched date
January 15, 2024 nor its normalized form 2024-01-15. -/
theorem claim_C8_counterexample :
    c8Run.value = some "January" ∧
    containsSub "January 15, 2024".data "January".data = false ∧
    containsSub "2024-01-15".data "January".data = false := by decide

/-- C8 (amended): on the text of the scenario the heuristic matcher for the
DATE field effective_date returns the candidate value January, the month
token captured by the long-form date pattern (a fragment of the matched date
January 15, 2024), with confidence 1, which is strictly greater than 0.3. -/
theorem claim_C8 :
    c8Run.value = some "January" ∧
    containsSub "January".data "January 15, 2024".data = true ∧
    c8Run.confidence = 1 ∧
    Rat.blt (mkRat 3 10) c8Run.confidence = true := by decide

theorem text_gate_eq (y l : List Char)
    (h : (if y.length < 3 then
            if (reMatch0 false reCapsCode y).isSome then some y else none
          else some y) = some l) : l = y := by
  split at h
  · split at h
    · exact (Option.some.inj h).symm
    · exact absurd h (by simp)
  · exact (Option.some.inj h).symm

theorem text_finish_head (x l : List Char) (h : text_finish x = some l) :
    ∃ c, l.head? = some c ∧ isLowerC c = false := by
  unfold text_finish at h
  rcases x with _ | ⟨c, t⟩
  · exfalso
    dsimp only at h
    rw [show (reMatch0 false reCapsCode ([] : List Char)).isSome = false from by decide] at h
    simp at h
  · dsimp only at h
    cases hc : isLowerC c
    · simp only [hc, Bool.false_eq_true, if_false] at h
      have hl := text_gate_eq _ _ h
      exact ⟨c, by rw [hl]; rfl, hc⟩
    · simp only [hc, eq_self_iff_true, if_true] at h
      have hl := text_gate_eq _ _ h
      exact ⟨upperChar c, by rw [hl]; rfl, isLowerC_upperChar c hc⟩

/-- C3, corrected: cleaning the TEXT value built from a leading enumeration
and the noise word unknown passes the noise check, but the later
TEXT-specific cleanup uncovers and capitalizes the noise word, so the
returned value case-insensitively equals a noise phrase. -/
theorem claim_C3_counterexample :
    clean_extracted_value (some "1. unknown") "TEXT" = some "Unknown" ∧
    noisePhrases.contains ⟨lowerL "Unknown".data⟩ = true := by decide

/-- C3 (amended): whenever cleaning with field type TEXT returns a value,
its first character is not a lowercase letter, and the intermediate string
tested by the noise check is not a noise phrase; the returned value itself
may still case-insensitively equal a noise phrase when the TEXT-specific
cleanup that runs after the noise check uncovers one. -/
theorem claim_C3 (v r : String) (h : clean_extracted_value (some v) "TEXT" = some r) :
    (∃ c, r.data.head? = some c ∧ isLowerC c = false) ∧
    noisePhrases.contains ⟨lowerL (clean_value_basic v.data)⟩ = false := by
  unfold clean_extracted_value at h
  dsimp only at h
  by_cases hemp : v.data.isEmpty = true
  · rw [hemp] at h
    simp at h
  · have hemp' : v.data.isEmpty = false := by simpa using hemp
    rw [hemp'] at h
    simp only [Bool.false_eq_true, if_false] at h
    by_cases hnoise : noisePhrases.contains ⟨lowerL (clean_value_basic v.data)⟩ = true
    · rw [hnoise] at h
      simp at h
    · have hnoise' : noisePhrases.contains ⟨lowerL (clean_value_basic v.data)⟩ = false := by
        simpa using hnoise
      refine ⟨?_, hnoise'⟩
      rw [hnoise'] at h
      simp only [Bool.false_eq_true, if_false, reduceIte] at h
      unfold clean_value_text at h
      by_cases hconn : connectiveWords.contains ⟨lowerL (clean_value_basic v.data)⟩ = true
      · rw [hconn] at h
        simp at h
      · have hconn' : connectiveWords.contains ⟨lowerL (clean_value_basic v.data)⟩ = false := by
          simpa using hconn
        rw [hconn'] at h
        simp only [Bool.false_eq_true, if_false] at h
        rcases Option.map_eq_some'.mp h with ⟨l, hl, hr⟩
        obtain ⟨c, hc1, hc2⟩ := text_finish_head _ _ hl
        exact ⟨c, by rw [← hr]; exact hc1, hc2⟩

/-- Closed instance of claim_C3 on a bracketed value. -/
theorem claim_C3_witness :
    (∃ c, ("Some Value" : String).data.head? = some c ∧ isLowerC c = false) ∧
    noisePhrases.contains ⟨lowerL (clean_value_basic "[Some Value]".data)⟩ = false :=
  claim_C3 "[Some Value]" "Some Value" (by decide)

/-- Both branches of an if distribute over a list-membership property. -/
theorem iteAll {α : Type} {p : α → Prop} {c : Prop} [Decidable c] {l1 l2 : List α}
    (h1 : ∀ e ∈ l1, p e) (h2 : ∀ e ∈ l2, p e) :
    ∀ e ∈ (if c then l1 else l2), p e := by
  split
  · exact h1
  · exact h2

/-- Every confidence boost of the static pattern catalog is nonnegative. -/
theorem patterns_for_name_boost (n t : String) :
    ∀ e ∈ patterns_for_name n t, 0 ≤ e.2 := by
  unfold patterns_for_name
  dsimp only
  repeat' apply iteAll
  all_goals decide

/-- Every confidence boost delivered by _get_patterns_for_field, catalog and
alias patterns alike, is nonnegative. -/
theorem get_patterns_boost (n t : String) (als : List String) :
    ∀ e ∈ get_patterns_for_field n t als, 0 ≤ e.2 := by
  intro e he
  unfold get_patterns_for_field at he
  dsimp only at he
  rcases List.mem_append.mp he with h | h
  · exact patterns_for_name_boost _ _ e h
  · obtain ⟨al, _, hal⟩ := List.mem_filterMap.mp h
    by_cases hemp : al.data.isEmpty = true
    · rw [if_pos hemp] at hal
      exact absurd hal (by simp)
    · rw [if_neg hemp] at hal
      injection hal with hal
      rw [← hal]
      exact (by decide : (0 : ℚ) ≤ mkRat 2 10)

/-- A candidate emitted by the finditer loop carries the clamped boosted
pattern confidence min(1, 0.6 + boost). -/
theorem heurFromMatches_conf (text : List Char) (t : String) (boost : ℚ) (g : Bool) :
    ∀ ms c, heurFromMatches text t boost g ms = some c →
      c.confidence = qMin 1 (qAdd (mkRat 3 5) boost) := by
  intro ms
  induction ms with
  | nil => intro c hc; exact absurd hc (by simp [heurFromMatches])
  | cons m rest ih =>
    intro c hc
    unfold heurFromMatches at hc
    dsimp only at hc
    repeat' split at hc
    all_goals first
      | exact ih c hc
      | (injection hc with hc; rw [← hc])

/-- A candidate emitted by the pattern loop owes its confidence to the boost
of one of the patterns of the list. -/
theorem heurPatternsLoop_conf (text : List Char) (t : String) :
    ∀ pats c, heurPatternsLoop text t pats = some c →
      ∃ e ∈ pats, c.confidence = qMin 1 (qAdd (mkRat 3 5) e.2) := by
  intro pats
  induction pats with
  | nil => intro c hc; exact absurd hc (by simp [heurPatternsLoop])
  | cons p rest ih =>
    obtain ⟨pat, boost⟩ := p
    intro c hc
    unfold heurPatternsLoop at hc
    cases hm : heurFromMatches text t boost (reHasGroups pat) (reFindAll true pat text) with
    | some c0 =>
      rw [hm] at hc
      injection hc with hc
      refine ⟨(pat, boost), List.mem_cons_self _ _, ?_⟩
      rw [← hc]
      exact heurFromMatches_conf text t boost (reHasGroups pat) _ c0 hm
    | none =>
      rw [hm] at hc
      obtain ⟨e, he, hconf⟩ := ih c hc
      exact ⟨e, List.mem_cons_of_mem _ he, hconf⟩

/-- A candidate emitted by the alias window stage carries confidence 0.4. -/
theorem heurAliasLoop_conf (text : List Char) (t : String) :
    ∀ als c, heurAliasLoop text t als = some c → c.confidence = mkRat 2 5 := by
  intro als
  induction als with
  | nil => intro c hc; exact absurd hc (by simp [heurAliasLoop])
  | cons al rest ih =>
    intro c hc
    unfold heurAliasLoop at hc
    by_cases hemp : al.data.isEmpty = true
    · rw [if_pos hemp] at hc
      exact ih c hc
    · rw [if_neg hemp] at hc
      cases hs : reSearch true (reAliasWindow al) text with
      | none =>
        rw [hs] at hc
        exact ih c hc
      | some m =>
        rw [hs] at hc
        dsimp only at hc
        split at hc
        · exact ih c hc
        · injection hc with hc
          rw [← hc]

/-- The heuristic matcher never returns a negative confidence. -/
theorem extract_with_heuristics_conf (dt : String) (dc : List ChunkIn)
    (fn ft dn : String) :
    0 ≤ (extract_with_heuristics dt dc fn ft dn).confidence := by
  unfold extract_with_heuristics
  dsimp only
  cases hp : heurPatternsLoop dt.data ft
      (get_patterns_for_field fn ft (derivedAliases [fn, dn])) with
  | some c =>
    dsimp only
    obtain ⟨e, he, hconf⟩ := heurPatternsLoop_conf _ _ _ c hp
    rw [hconf, qMin_eq, qAdd_eq]
    have hb : 0 ≤ e.2 := get_patterns_boost _ _ _ e he
    have h35 : (0 : ℚ) ≤ mkRat 3 5 := by decide
    exact le_min (by norm_num) (by linarith)
  | none =>
    dsimp only
    cases ha : heurAliasLoop dt.data ft (derivedAliases [fn, dn]) with
    | some c =>
      dsimp only
      rw [heurAliasLoop_conf _ _ _ c ha]
      decide
    | none =>
      dsimp only
      cases hs : find_sentence_by_alias dt.data (derivedAliases [fn, dn]) with
      | some sm =>
        dsimp only
        split
        · exact (by decide : (0 : ℚ) ≤ mkRat 7 20)
        · exact le_refl 0
      | none =>
        exact le_refl 0

/-- The cascade fallback preserves nonnegativity of the confidence. -/
theorem after_fallback_conf (tierRes : Candidate) (h : 0 ≤ tierRes.confidence)
    (dt : String) (dc : List ChunkIn) (fn ft dn : String) :
    0 ≤ (after_fallback tierRes dt dc fn ft dn).confidence := by
  unfold after_fallback
  dsimp only
  split
  · split
    · exact extract_with_heuristics_conf dt dc fn ft dn
    · exact h
  · exact h

/-- The validation factor is one of 0, 1/2, 3/5, 1. -/
theorem validate_cases (e n : Option String) (t : String) :
    validate_extraction e n t = 0 ∨ validate_extraction e n t = mkRat 1 2 ∨
      validate_extraction e n t = mkRat 3 5 ∨ validate_extraction e n t = 1 := by
  unfold validate_extraction
  dsimp only
  split
  · exact Or.inl rfl
  split
  · exact Or.inr (Or.inl rfl)
  split
  · split
    · exact Or.inr (Or.inr (Or.inr rfl))
    · exact Or.inr (Or.inr (Or.inl rfl))
  split
  · split
    · exact Or.inr (Or.inr (Or.inr rfl))
    · exact Or.inr (Or.inr (Or.inl rfl))
  split
  · split
    · exact Or.inr (Or.inr (Or.inr rfl))
    · exact Or.inr (Or.inl rfl)
  · exact Or.inr (Or.inr (Or.inr rfl))

/-- The validation factor lies in the unit interval. -/
theorem validate_between (e n : Option String) (t : String) :
    0 ≤ validate_extraction e n t ∧ validate_extraction e n t ≤ 1 := by
  have h12 : mkRat 1 2 = (1 : ℚ)/2 := Rat.mkRat_eq_div 1 2
  have h35 : mkRat 3 5 = (3 : ℚ)/5 := Rat.mkRat_eq_div 3 5
  rcases validate_cases e n t with h | h | h | h <;> rw [h] <;> constructor <;>
    norm_num [h12, h35]

/-- A null extracted value validates to 0. -/
theorem validate_none (n : Option String) (t : String) :
    validate_extraction none n t = 0 := by
  unfold validate_extraction
  rfl

/-- The Python or-chain yields its right operand when the left is falsy. -/
theorem orTruthy_of_not (a : Option String) (b : String) (h : truthy a = false) :
    orTruthy a b = b := by
  cases a with
  | none => rfl
  | some s =>
    unfold truthy at h
    simp only [Bool.not_eq_false'] at h
    unfold orTruthy
    dsimp only
    rw [if_pos h]

/-- An empty query yields no citations. -/
theorem find_citations_empty (dc : List ChunkIn) (k : Nat) :
    find_citations "" dc k = [] := by
  unfold find_citations
  rfl

/-- The finalization step: confidence bounds, the null-value zeroing, and
the empty-citation condition. -/
theorem finalize_bounds (A : Candidate) (hA : 0 ≤ A.confidence)
    (dc : List ChunkIn) (fn ft : String) :
    (0 ≤ (finalize_extraction A dc fn ft).confidence_score ∧
      (finalize_extraction A dc fn ft).confidence_score ≤ 1) ∧
    ((finalize_extraction A dc fn ft).extracted_value = none →
      (finalize_extraction A dc fn ft).confidence_score = 0) ∧
    ((finalize_extraction A dc fn ft).extracted_value = none →
      truthy (finalize_extraction A dc fn ft).raw_text = false →
      (finalize_extraction A dc fn ft).citations = []) := by
  unfold finalize_extraction
  dsimp only
  refine ⟨⟨?_, ?_⟩, fun hev => ?_, fun hev hrt => ?_⟩
  · rw [qMin_eq, qMul_eq]
    exact le_min (by norm_num) (mul_nonneg hA (validate_between _ _ _).1)
  · rw [qMin_eq, qMul_eq]
    exact min_le_left _ _
  · rw [hev, validate_none, qMul_eq, qMin_eq, mul_zero]
    exact min_eq_right (by norm_num)
  · rw [orTruthy_of_not _ _ hrt, hev]
    exact find_citations_empty dc 3

/-- C1 (amended): for every extraction from a provider-cascade outcome whose
candidate, if any, carries nonnegative confidence, the confidence score lies
in [0, 1], a null extracted value forces a confidence score of exactly 0,
and the citation list is empty whenever additionally the raw text is null or
empty; the citation query is the raw text or-else the extracted value, so a
noise-valued candidate with raw text may still carry citations. -/
theorem claim_C1 (tier : Except String Candidate)
    (hconf : ∀ c, tier = Except.ok c → 0 ≤ c.confidence)
    (dt : String) (dc : List ChunkIn) (fn ft dn did : String) :
    (0 ≤ (extract_single_field tier dt dc fn ft dn did).confidence_score ∧
      (extract_single_field tier dt dc fn ft dn did).confidence_score ≤ 1) ∧
    ((extract_single_field tier dt dc fn ft dn did).extracted_value = none →
      (extract_single_field tier dt dc fn ft dn did).confidence_score = 0) ∧
    ((extract_single_field tier dt dc fn ft dn did).extracted_value = none →
      truthy (extract_single_field tier dt dc fn ft dn did).raw_text = false →
      (extract_single_field tier dt dc fn ft dn did).citations = []) := by
  cases tier with
  | error e =>
    exact ⟨⟨le_refl 0, (by norm_num : (0 : ℚ) ≤ 1)⟩, fun _ => rfl, fun _ _ => rfl⟩
  | ok c =>
    exact finalize_bounds (after_fallback c dt dc fn ft dn)
      (after_fallback_conf c (hconf c rfl) dt dc fn ft dn) dc fn ft

/-- Closed instance of claim_C1 at a failing cascade. -/
theorem claim_C1_witness :
    (0 ≤ (extract_single_field (Except.error "boom") "" [] "f" "TEXT" "F"
        "d").confidence_score ∧
      (extract_single_field (Except.error "boom") "" [] "f" "TEXT" "F"
        "d").confidence_score ≤ 1) ∧
    (extract_single_field (Except.error "boom") "" [] "f" "TEXT" "F"
        "d").citations = [] := by
  have h := claim_C1 (Except.error "boom") (fun c hc => nomatch hc) "" [] "f" "TEXT" "F" "d"
  exact ⟨h.1, h.2.2 rfl rfl⟩

/-- C1, corrected: a tier candidate carrying a noise value together with raw
text is cleaned to a null extracted value with confidence 0, yet the
citation search still runs on the raw text and returns a citation. -/
theorem claim_C1_counterexample :
    c1Run.extracted_value = none ∧ c1Run.confidence_score = 0 ∧ c1Run.citations ≠ [] := by
  decide

/-- C4, corrected: the value February 30, 2024 matches the long-form date
regex, but the strptime calendar check fails, so normalization falls
through and returns the value unchanged, which does not match YYYY-MM-DD. -/
theorem claim_C4_counterexample :
    (longFindL (pyStripL "February 30, 2024".data)).isSome = true ∧
    normalize_value (some "February 30, 2024") "DATE" = some "February 30, 2024" ∧
    isIsoShaped "February 30, 2024".data = false := by decide

/-- C9, corrected: a text of three words exceeding the chunk size two is a
single sentence, and is emitted as one oversized chunk, not more than one. -/
theorem claim_C9_counterexample :
    (splitWs "a b c".data).length = 3 ∧
    (split_sentences "a b c".data).length = 1 ∧
    (chunker_chunk 2 1 "a b c").length = 1 := by decide

/-- C7: extract_fields returns exactly one extraction result per field
definition in input order; a raised exception reaching the per-field
boundary becomes a null result with confidence 0, no citations, and the
error message attached; and the result of any field depends only on that
field and its own cascade outcome, so an error in one field leaves every
other field's result unchanged. -/
theorem claim_C7 (tierOf t1 t2 : FieldDef → Except String Candidate)
    (document_text : String) (document_chunks : List ChunkIn)
    (defs : List FieldDef) (document_id : String) :
    (extract_fields tierOf document_text document_chunks defs document_id).length
      = defs.length ∧
    (∀ (i : Nat) (fd : FieldDef) (e : String), defs[i]? = some fd →
      tierOf fd = Except.error e →
      (extract_fields tierOf document_text document_chunks defs document_id)[i]? =
        some { field_name := fieldNameOf fd, field_type := fieldTypeOf fd
               extracted_value := none, raw_text := none, normalized_value := none
               confidence_score := 0, citations := [], error := some e :
               ExtractionOut }) ∧
    (∀ (i : Nat) (fd : FieldDef), defs[i]? = some fd → t1 fd = t2 fd →
      (extract_fields t1 document_text document_chunks defs document_id)[i]? =
        (extract_fields t2 document_text document_chunks defs document_id)[i]?) := by
  refine ⟨by simp [extract_fields], fun i fd e hdef htier => ?_, fun i fd hdef ht => ?_⟩
  · unfold extract_fields
    rw [List.getElem?_map, hdef]
    simp [extract_single_field, htier]
  · unfold extract_fields
    rw [List.getElem?_map, List.getElem?_map, hdef]
    simp [ht]

/-- Closed instance of claim_C7: a field whose cascade raises is converted
into the null record carrying the error. -/
theorem claim_C7_witness :
    (extract_fields (fun _ => Except.error "boom") "" []
        [{ name := some "f", display_name := none, field_type := some "TEXT",
           description := none }] "d")[0]? =
      some { field_name := "f", field_type := "TEXT", extracted_value := none
             raw_text := none, normalized_value := none, confidence_score := 0
             citations := [], error := some "boom" } := by
  have h := (claim_C7 (fun _ => Except.error "boom") (fun _ => Except.error "boom")
      (fun _ => Except.error "boom") "" []
      [{ name := some "f", display_name := none, field_type := some "TEXT",
         description := none }] "d").2.1 0
      { name := some "f", display_name := none, field_type := some "TEXT",
        description := none } "boom" rfl rfl
  rw [h]
  decide

/-- Membership through the descending insertion step. -/
theorem mem_insertScoredDesc (x z : Scored) :
    ∀ l, z ∈ insertScoredDesc x l ↔ z = x ∨ z ∈ l := by
  intro l
  induction l with
  | nil => simp [insertScoredDesc]
  | cons y rest ih =>
    unfold insertScoredDesc
    split
    · simp [List.mem_cons]
    · rw [List.mem_cons, ih, List.mem_cons]
      tauto

/-- The descending insertion step preserves the sort order. -/
theorem sorted_insertScoredDesc (x : Scored) :
    ∀ l, l.Pairwise (fun a b => b.similarity ≤ a.similarity) →
      (insertScoredDesc x l).Pairwise (fun a b => b.similarity ≤ a.similarity) := by
  intro l
  induction l with
  | nil => intro _; simp [insertScoredDesc]
  | cons y rest ih =>
    intro hl
    rw [List.pairwise_cons] at hl
    obtain ⟨hy, hrest⟩ := hl
    unfold insertScoredDesc
    split
    · rename_i hblt
      rw [List.pairwise_cons]
      refine ⟨fun z hz => ?_, List.pairwise_cons.mpr ⟨hy, hrest⟩⟩
      rcases List.mem_cons.mp hz with rfl | hz'
      · exact le_of_lt hblt
      · exact le_trans (hy z hz') (le_of_lt hblt)
    · rename_i hblt
      have hxy : x.similarity ≤ y.similarity := not_lt.mp hblt
      rw [List.pairwise_cons]
      refine ⟨fun z hz => ?_, ih hrest⟩
      rcases (mem_insertScoredDesc x z rest).mp hz with rfl | hz'
      · exact hxy
      · exact hy z hz'

/-- The insertion sort emits a list descending in similarity. -/
theorem sorted_sortScoredDesc (l : List Scored) :
    (sortScoredDesc l).Pairwise (fun a b => b.similarity ≤ a.similarity) := by
  induction l with
  | nil => simp [sortScoredDesc]
  | cons x rest ih =>
    unfold sortScoredDesc
    exact sorted_insertScoredDesc x _ ih

/-- The insertion sort preserves membership. -/
theorem mem_sortScoredDesc (z : Scored) (l : List Scored) :
    z ∈ sortScoredDesc l ↔ z ∈ l := by
  induction l with
  | nil => simp [sortScoredDesc]
  | cons x rest ih =>
    unfold sortScoredDesc
    rw [mem_insertScoredDesc, ih, List.mem_cons]

/-- A pair of an enumerated list carries an element of the list. -/
theorem snd_mem_of_mem_enumFrom {α : Type} (p : Nat × α) :
    ∀ (n : Nat) (l : List α), p ∈ List.enumFrom n l → p.2 ∈ l := by
  intro n l
  induction l generalizing n with
  | nil => intro h; exact absurd h (by simp)
  | cons x rest ih =>
    intro h
    rw [List.enumFrom] at h
    rcases List.mem_cons.mp h with rfl | h'
    · exact List.mem_cons_self _ _
    · exact List.mem_cons_of_mem _ (ih _ h')

/-- C10: the citation list is sorted by non-increasing relevance, holds at
most top_k entries, every entry has strictly positive score and a citation
text truncated to 500 characters taken from some input chunk whose score is
the Jaccard-with-containment-boost similarity against the query, and an
empty query yields the empty list. -/
theorem claim_C10 (q : String) (chunks : List ChunkIn) (k : Nat) :
    find_citations "" chunks k = [] ∧
    (find_citations q chunks k).Pairwise
      (fun a b => b.relevance_score ≤ a.relevance_score) ∧
    (find_citations q chunks k).length ≤ k ∧
    (∀ c ∈ find_citations q chunks k,
      (0 < c.relevance_score ∧ c.citation_text.data.length ≤ 500) ∧
      ∃ ch ∈ chunks, c.relevance_score = chunkScore q.data (ch.text.getD "").data ∧
        c.citation_text = ⟨(ch.text.getD "").data.take 500⟩) := by
  refine ⟨find_citations_empty chunks k, ?_, ?_, ?_⟩
  · by_cases hq : q.data.isEmpty = true
    · unfold find_citations
      rw [if_pos hq]
      exact List.Pairwise.nil
    · unfold find_citations
      rw [if_neg hq]
      dsimp only
      rw [List.pairwise_map]
      exact List.Pairwise.sublist
        ((List.filter_sublist _).trans (List.take_sublist _ _))
        (sorted_sortScoredDesc _)
  · by_cases hq : q.data.isEmpty = true
    · unfold find_citations
      rw [if_pos hq]
      exact Nat.zero_le k
    · unfold find_citations
      rw [if_neg hq]
      dsimp only
      rw [List.length_map]
      exact le_trans (List.length_filter_le _ _)
        (le_trans (List.length_take_le _ _) (le_refl k))
  · intro c hc
    by_cases hq : q.data.isEmpty = true
    · unfold find_citations at hc
      rw [if_pos hq] at hc
      exact absurd hc (List.not_mem_nil c)
    · unfold find_citations at hc
      rw [if_neg hq] at hc
      dsimp only at hc
      obtain ⟨s, hs, rfl⟩ := List.mem_map.mp hc
      have hsf := List.mem_filter.mp hs
      have hmem : s ∈ List.map _ chunks.enum :=
        (mem_sortScoredDesc _ _).mp (List.mem_of_mem_take hsf.1)
      obtain ⟨p, hp, hps⟩ := List.mem_map.mp hmem
      refine ⟨⟨hsf.2, List.length_take_le _ _⟩,
              ⟨p.2, snd_mem_of_mem_enumFrom p 0 chunks hp, ?_, ?_⟩⟩
      · rw [← hps]
      · rw [← hps]

/-- Closed instance of claim_C10 on a two-chunk corpus. -/
theorem claim_C10_witness :
    (find_citations "alpha beta"
        [⟨some "alpha beta gamma", some 2, some "Intro"⟩,
         ⟨some "delta", none, none⟩] 3).length ≤ 3 ∧
    ∃ ch ∈ ([⟨some "alpha beta gamma", some 2, some "Intro"⟩,
             ⟨some "delta", none, none⟩] : List ChunkIn),
      ({ citation_text := "alpha beta gamma", page_number := 2,
         section_title := "Intro", relevance_score := mkRat 29 30,
         chunk_id := "0" } : Citation).relevance_score
          = chunkScore "alpha beta".data (ch.text.getD "").data ∧
      ({ citation_text := "alpha beta gamma", page_number := 2,
         section_title := "Intro", relevance_score := mkRat 29 30,
         chunk_id := "0" } : Citation).citation_text
          = ⟨(ch.text.getD "").data.take 500⟩ := by
  have h := claim_C10 "alpha beta"
    [⟨some "alpha beta gamma", some 2, some "Intro"⟩, ⟨some "delta", none, none⟩] 3
  have he : find_citations "alpha beta"
        [⟨some "alpha beta gamma", some 2, some "Intro"⟩,
         ⟨some "delta", none, none⟩] 3 =
      [{ citation_text := "alpha beta gamma", page_number := 2,
         section_title := "Intro", relevance_score := mkRat 29 30,
         chunk_id := "0" }] := by decide
  have hm : ({ citation_text := "alpha beta gamma", page_number := 2,
               section_title := "Intro", relevance_score := mkRat 29 30,
               chunk_id := "0" } : Citation) ∈ find_citations "alpha beta"
        [⟨some "alpha beta gamma", some 2, some "Intro"⟩,
         ⟨some "delta", none, none⟩] 3 := by
    rw [he]
    exact List.mem_cons_self _ _
  exact ⟨h.2.2.1, (h.2.2.2 _ hm).2⟩

/-- The chunk loop never shortens the accumulator. -/
theorem chunkGo_len_ge (cs ov tot : Nat) :
    ∀ (ss : List (List Char)) (i : Nat) (acc : List Chunk) (cur : List (List Char))
      (cnt : Nat), acc.length ≤ (chunkGo cs ov tot i ss acc cur cnt).length := by
  intro ss
  induction ss with
  | nil =>
    intro i acc cur cnt
    unfold chunkGo
    rw [List.length_append]
    exact Nat.le_add_right _ _
  | cons s rest ih =>
    intro i acc cur cnt
    unfold chunkGo
    dsimp only
    split
    · cases hov : overlapGo ov 0 cur.reverse with
      | mk ovr wc =>
        dsimp only
        refine le_trans ?_ (ih (i + 1) (acc ++ [mkChunk cur (estimate_page i tot)])
          (ovr ++ [s]) (wc + (splitWs s).length))
        rw [List.length_append]
        exact Nat.le_add_right _ _
    · exact ih (i + 1) acc (cur ++ [s]) (cnt + (splitWs s).length)

/-- A nonempty current sentence buffer yields at least one more chunk. -/
theorem chunkGo_len_one (cs ov tot : Nat) :
    ∀ (ss : List (List Char)) (i : Nat) (acc : List Chunk) (cur : List (List Char))
      (cnt : Nat), cur.isEmpty = false →
      acc.length + 1 ≤ (chunkGo cs ov tot i ss acc cur cnt).length := by
  intro ss
  induction ss with
  | nil =>
    intro i acc cur cnt hcur
    unfold chunkGo
    rw [hcur]
    simp
  | cons s rest ih =>
    intro i acc cur cnt hcur
    unfold chunkGo
    dsimp only
    split
    · cases hov : overlapGo ov 0 cur.reverse with
      | mk ovr wc =>
        dsimp only
        have h := chunkGo_len_ge cs ov tot rest (i + 1)
          (acc ++ [mkChunk cur (estimate_page i tot)]) (ovr ++ [s])
          (wc + (splitWs s).length)
        simp only [List.length_append, List.length_singleton] at h
        exact h
    · exact ih (i + 1) acc (cur ++ [s]) (cnt + (splitWs s).length)
        (by cases cur <;> rfl)

/-- With a nonempty buffer and enough remaining words to exceed the chunk
size, the loop emits at least two further chunks. -/
theorem chunkGo_two (cs ov tot : Nat) :
    ∀ (ss : List (List Char)) (i : Nat) (acc : List Chunk) (cur : List (List Char))
      (cnt : Nat), cur.isEmpty = false → ss ≠ [] → cs < cnt + sumWords ss →
      acc.length + 2 ≤ (chunkGo cs ov tot i ss acc cur cnt).length := by
  intro ss
  induction ss with
  | nil => intro i acc cur cnt _ hne _; exact absurd rfl hne
  | cons s rest ih =>
    intro i acc cur cnt hcur _ hsum
    unfold chunkGo
    dsimp only
    by_cases hcond : (cs < cnt + (splitWs s).length && !cur.isEmpty) = true
    · rw [if_pos hcond]
      cases hov : overlapGo ov 0 cur.reverse with
      | mk ovr wc =>
        dsimp only
        have h := chunkGo_len_one cs ov tot rest (i + 1)
          (acc ++ [mkChunk cur (estimate_page i tot)]) (ovr ++ [s])
          (wc + (splitWs s).length) (by cases ovr <;> rfl)
        simp only [List.length_append, List.length_singleton] at h
        omega
    · rw [if_neg hcond]
      have hw : ¬ (cs < cnt + (splitWs s).length) := by
        intro hlt
        apply hcond
        rw [hcur]
        simp [hlt]
      cases rest with
      | nil =>
        exfalso
        apply hw
        have hs : sumWords [s] = (splitWs s).length := by
          simp [sumWords]
        rw [hs] at hsum
        exact hsum
      | cons s2 rest2 =>
        refine ih (i + 1) acc (cur ++ [s]) (cnt + (splitWs s).length)
          (by cases cur <;> rfl) (by simp) ?_
        have hs : sumWords (s :: s2 :: rest2)
            = (splitWs s).length + sumWords (s2 :: rest2) := by
          simp [sumWords]
        rw [hs] at hsum
        omega

/-- C9 (amended): chunking is deterministic and chunking empty text yields
no chunks; a text whose sentence split has at least two sentences with total
word count exceeding chunk_size yields at least two chunks.  (A single
oversized sentence is emitted as one chunk, so the spec's unconditional
more-than-chunk_size-words clause fails; see the counterexample.) -/
theorem claim_C9 (cs ov : Nat) (text : String) :
    chunker_chunk cs ov text = chunker_chunk cs ov text ∧
    chunker_chunk cs ov "" = [] ∧
    (2 ≤ (split_sentences text.data).length →
      cs < sumWords (split_sentences text.data) →
      2 ≤ (chunker_chunk cs ov text).length) := by
  refine ⟨rfl, rfl, fun hlen hsum => ?_⟩
  unfold chunker_chunk
  dsimp only
  cases hss : split_sentences text.data with
  | nil =>
    rw [hss] at hlen
    exact absurd hlen (by decide)
  | cons s rest =>
    rw [hss] at hlen hsum
    unfold chunkGo
    dsimp only
    simp only [List.isEmpty_nil, Bool.not_true, Bool.and_false, Bool.false_eq_true,
               if_false, List.nil_append, Nat.zero_add]
    have hrest : rest ≠ [] := by
      cases rest with
      | nil => exact absurd hlen (by simp)
      | cons a b => simp
    have hs : sumWords (s :: rest) = (splitWs s).length + sumWords rest := by
      simp [sumWords]
    rw [hs] at hsum
    have h := chunkGo_two cs ov (s :: rest).length rest 1 [] [s]
      ((splitWs s).length) rfl hrest (by omega)
    simpa using h

/-- Closed instance of claim_C9: two three-word sentences, chunk size 4. -/
theorem claim_C9_witness :
    2 ≤ (chunker_chunk 4 0 "One two three. Four five six.").length := by
  refine (claim_C9 4 0 "One two three. Four five six.").2.2 (by decide) (by decide)

/-- Keys after a group insertion: unchanged on a known value, appended on a new one. -/
theorem insertGroup_keys (v d : String) :
    ∀ acc : List (String × List String),
      (insertGroup acc v d).map Prod.fst =
        if v ∈ acc.map Prod.fst then acc.map Prod.fst
        else acc.map Prod.fst ++ [v] := by
  intro acc
  induction acc with
  | nil => simp [insertGroup]
  | cons g rest ih =>
    obtain ⟨v0, ds⟩ := g
    unfold insertGroup
    by_cases hv : v0 = v
    · subst hv
      rw [if_pos rfl, if_pos (by simp)]
      simp
    · rw [if_neg hv]
      simp only [List.map_cons, ih]
      by_cases hm : v ∈ rest.map Prod.fst
      · rw [if_pos hm, if_pos (List.mem_cons_of_mem _ hm)]
      · rw [if_neg hm, if_neg ?_]
        · simp
        · intro hc
          rcases List.mem_cons.mp hc with h | h
          · exact hv h.symm
          · exact hm h

/-- A group insertion grows the total member count by one. -/
theorem insertGroup_sizes (v d : String) :
    ∀ acc : List (String × List String),
      ((insertGroup acc v d).map (fun g => g.2.length)).sum
        = ((acc.map (fun g => g.2.length)).sum) + 1 := by
  intro acc
  induction acc with
  | nil => simp [insertGroup]
  | cons g rest ih =>
    obtain ⟨v0, ds⟩ := g
    unfold insertGroup
    by_cases hv : v0 = v
    · rw [if_pos hv]
      simp
      omega
    · rw [if_neg hv]
      simp only [List.map_cons, List.sum_cons, ih]
      omega

/-- A group insertion keeps the key list duplicate-free. -/
theorem insertGroup_nodup (v d : String) (acc : List (String × List String))
    (h : (acc.map Prod.fst).Nodup) :
    ((insertGroup acc v d).map Prod.fst).Nodup := by
  rw [insertGroup_keys]
  split
  · exact h
  · rename_i hnm
    refine List.Nodup.append h (List.nodup_singleton v) ?_
    intro a ha hb
    rw [List.mem_singleton] at hb
    subst hb
    exact hnm ha

/-- The key set after a group insertion. -/
theorem insertGroup_toFinset (v d : String) (acc : List (String × List String)) :
    ((insertGroup acc v d).map Prod.fst).toFinset
      = insert v (acc.map Prod.fst).toFinset := by
  rw [insertGroup_keys]
  split
  · rename_i hm
    rw [Finset.insert_eq_self.mpr (List.mem_toFinset.mpr hm)]
  · rw [List.toFinset_append, Finset.union_comm]
    simp [← Finset.insert_eq]

/-- The grouping fold: duplicate-free keys, key set equal to the set of
grouped values, group sizes summing to the number of records. -/
theorem foldl_insertGroup_props (m : List (String × String)) :
    ∀ (exts : List ExtRecord) (acc : List (String × List String)),
      (acc.map Prod.fst).Nodup →
      (((exts.foldl (fun a e =>
            insertGroup a (extVal e) (docLabelOf m e.document_id)) acc).map
          Prod.fst).Nodup ∧
        ((exts.foldl (fun a e =>
            insertGroup a (extVal e) (docLabelOf m e.document_id)) acc).map
          Prod.fst).toFinset
          = (acc.map Prod.fst).toFinset ∪ (exts.map extVal).toFinset ∧
        ((exts.foldl (fun a e =>
            insertGroup a (extVal e) (docLabelOf m e.document_id)) acc).map
          (fun g => g.2.length)).sum
          = (acc.map (fun g => g.2.length)).sum + exts.length) := by
  intro exts
  induction exts with
  | nil =>
    intro acc h
    refine ⟨h, ?_, ?_⟩ <;> simp
  | cons e rest ih =>
    intro acc h
    rw [List.foldl_cons]
    obtain ⟨h1, h2, h3⟩ := ih (insertGroup acc (extVal e) (docLabelOf m e.document_id))
      (insertGroup_nodup _ _ acc h)
    refine ⟨h1, ?_, ?_⟩
    · rw [h2, insertGroup_toFinset]
      rw [List.map_cons, List.toFinset_cons, Finset.insert_union, Finset.union_insert]
    · rw [h3, insertGroup_sizes]
      simp
      omega

/-- The Python max with a size key returns a maximal element, and every
group strictly before it in iteration order is strictly smaller. -/
theorem maxByFirstGo_spec (l : List (String × List String)) :
    ∀ best : String × List String,
      ∃ pre post, best :: l = pre ++ maxByFirstGo best l :: post ∧
        (∀ g ∈ pre, g.2.length < (maxByFirstGo best l).2.length) ∧
        (∀ g ∈ best :: l, g.2.length ≤ (maxByFirstGo best l).2.length) := by
  induction l with
  | nil =>
    intro best
    exact ⟨[], [], by simp [maxByFirstGo], by simp, by simp [maxByFirstGo]⟩
  | cons g rest ih =>
    intro best
    by_cases hlt : best.2.length < g.2.length
    · have hred : maxByFirstGo best (g :: rest) = maxByFirstGo g rest := by
        show maxByFirstGo (if best.2.length < g.2.length then g else best) rest
          = maxByFirstGo g rest
        rw [if_pos hlt]
      obtain ⟨pre, post, hdec, hpre, hmax⟩ := ih g
      rw [hred]
      refine ⟨best :: pre, post, ?_, ?_, ?_⟩
      · rw [List.cons_append, ← hdec]
      · intro x hx
        rcases List.mem_cons.mp hx with rfl | hx'
        · exact lt_of_lt_of_le hlt (hmax g (List.mem_cons_self _ _))
        · exact hpre x hx'
      · intro x hx
        rcases List.mem_cons.mp hx with rfl | hx'
        · exact le_of_lt (lt_of_lt_of_le hlt (hmax g (List.mem_cons_self _ _)))
        · exact hmax x hx'
    · have hred : maxByFirstGo best (g :: rest) = maxByFirstGo best rest := by
        show maxByFirstGo (if best.2.length < g.2.length then g else best) rest
          = maxByFirstGo best rest
        rw [if_neg hlt]
      obtain ⟨pre, post, hdec, hpre, hmax⟩ := ih best
      rw [hred]
      have hgle : g.2.length ≤ (maxByFirstGo best rest).2.length :=
        le_trans (Nat.not_lt.mp hlt) (hmax best (List.mem_cons_self _ _))
      cases pre with
      | nil =>
        rw [List.nil_append] at hdec
        have hb : best = maxByFirstGo best rest := (List.cons.injEq _ _ _ _).mp hdec |>.1
        have hr : rest = post := (List.cons.injEq _ _ _ _).mp hdec |>.2
        refine ⟨[], g :: post, ?_, by simp, ?_⟩
        · rw [List.nil_append, ← hb, ← hr]
        · intro x hx
          rcases List.mem_cons.mp hx with rfl | hx'
          · exact hmax x (List.mem_cons_self _ _)
          · rcases List.mem_cons.mp hx' with rfl | hx''
            · exact hgle
            · exact hmax x (List.mem_cons_of_mem _ hx'')
      | cons p0 pre' =>
        rw [List.cons_append] at hdec
        have hb : best = p0 := (List.cons.injEq _ _ _ _).mp hdec |>.1
        have hr : rest = pre' ++ maxByFirstGo best rest :: post :=
          (List.cons.injEq _ _ _ _).mp hdec |>.2
        have hbestlt : best.2.length < (maxByFirstGo best rest).2.length := by
          have hp := hpre p0 (List.mem_cons_self _ _)
          rw [← hb] at hp
          exact hp
        refine ⟨best :: g :: pre', post, ?_, ?_, ?_⟩
        · rw [List.cons_append, List.cons_append, ← hr]
        · intro x hx
          rcases List.mem_cons.mp hx with rfl | hx'
          · exact hbestlt
          · rcases List.mem_cons.mp hx' with rfl | hx''
            · exact lt_of_le_of_lt (Nat.not_lt.mp hlt) hbestlt
            · exact hpre x (List.mem_cons_of_mem _ hx'')
        · intro x hx
          rcases List.mem_cons.mp hx with rfl | hx'
          · exact le_of_lt hbestlt
          · rcases List.mem_cons.mp hx' with rfl | hx''
            · exact hgle
            · exact hmax x (List.mem_cons_of_mem _ hx'')

/-- Filtering the majority key out of a duplicate-free group list removes
exactly the majority group. -/
theorem filter_out_majority (maj : String × List String) :
    ∀ (pre post : List (String × List String)),
      ((pre ++ maj :: post).map Prod.fst).Nodup →
      (pre ++ maj :: post).filter (fun g => g.1 ≠ maj.1) = pre ++ post := by
  intro pre post hnd
  rw [List.map_append, List.map_cons, List.nodup_append] at hnd
  obtain ⟨hpre, hcons, hdisj⟩ := hnd
  rw [List.nodup_cons] at hcons
  rw [List.filter_append]
  have h1 : pre.filter (fun g => g.1 ≠ maj.1) = pre := by
    rw [List.filter_eq_self]
    intro g hg
    simp only [ne_eq, decide_not, Bool.not_eq_true', decide_eq_false_iff_not]
    intro hc
    exact hdisj (List.mem_map_of_mem Prod.fst hg) (by rw [hc]; exact List.mem_cons_self _ _)
  have h2 : (maj :: post).filter (fun g => g.1 ≠ maj.1) = post := by
    rw [List.filter_cons]
    have : (decide (maj.1 ≠ maj.1)) = false := by simp
    rw [if_neg (by simp)]
    rw [List.filter_eq_self]
    intro g hg
    simp only [ne_eq, decide_not, Bool.not_eq_true', decide_eq_false_iff_not]
    intro hc
    exact hcons.1 (by rw [← hc]; exact List.mem_map_of_mem Prod.fst hg)
  rw [h1, h2]

/-- C2: on a nonempty extraction list the diff reports unique_values equal
to the number of distinct trimmed values, total_documents equal to the
record count, is_unanimous exactly when one distinct value exists (and then
no outliers), otherwise outliers of length M minus majority_count, where the
majority group is a largest value group and every earlier group is strictly
smaller (the first-maximal tie-break). -/
theorem claim_C2 (docNameMap : List (String × String)) (field_exts : List ExtRecord)
    (hne : field_exts ≠ []) :
    ∃ fd, compute_field_diff docNameMap field_exts = some fd ∧
      fd.value_groups = valueGroupsOf docNameMap field_exts ∧
      fd.unique_values = (field_exts.map extVal).toFinset.card ∧
      fd.total_documents = field_exts.length ∧
      (fd.is_unanimous = true ↔ (field_exts.map extVal).toFinset.card = 1) ∧
      (fd.is_unanimous = true → fd.outliers = []) ∧
      (fd.is_unanimous = false →
        fd.outliers.length = field_exts.length - fd.majority_count) ∧
      (∃ ds pre post, fd.value_groups = pre ++ (fd.majority_value, ds) :: post ∧
        ds.length = fd.majority_count ∧
        (∀ g ∈ fd.value_groups, g.2.length ≤ fd.majority_count) ∧
        (∀ g ∈ pre, g.2.length < fd.majority_count)) := by
  obtain ⟨hnd, hfin, hsum⟩ := foldl_insertGroup_props docNameMap field_exts []
    (by simp)
  have hGdef : valueGroupsOf docNameMap field_exts
      = field_exts.foldl (fun a e =>
          insertGroup a (extVal e) (docLabelOf docNameMap e.document_id)) [] := rfl
  rw [← hGdef] at hnd hfin hsum
  simp only [List.map_nil, List.toFinset_nil, Finset.empty_union, List.sum_nil,
    Nat.zero_add] at hfin hsum
  have hcard : (valueGroupsOf docNameMap field_exts).length
      = (field_exts.map extVal).toFinset.card := by
    rw [← hfin, List.toFinset_card_of_nodup hnd, List.length_map]
  unfold compute_field_diff
  dsimp only
  cases hGc : valueGroupsOf docNameMap field_exts with
  | nil =>
    exfalso
    rw [hGc] at hsum
    simp only [List.map_nil, List.sum_nil] at hsum
    exact hne (List.length_eq_zero.mp hsum.symm)
  | cons g0 gs =>
    rw [hGc] at hnd hcard hsum
    obtain ⟨pre, post, hdec, hpre, hmax⟩ := maxByFirstGo_spec gs g0
    refine ⟨_, rfl, rfl, hcard, hsum, ?_, ?_, ?_, ?_⟩
    · show decide ((g0 :: gs).length = 1) = true ↔ _
      rw [decide_eq_true_eq, hcard]
    · intro h
      exact if_pos (of_decide_eq_true h)
    · intro h
      have hcond : ¬ ((g0 :: gs).length = 1) := of_decide_eq_false h
      dsimp only
      rw [if_neg hcond]
      rw [hdec] at hnd hsum ⊢
      rw [filter_out_majority _ _ _ hnd]
      have hflat : ∀ (l : List (String × List String)) (f : String × List String → String → Outlier),
          (l.flatMap (fun g => g.2.map (f g))).length
            = (l.map (fun g => g.2.length)).sum := by
        intro l f
        induction l with
        | nil => simp
        | cons x xs ihx => simp [ihx]
      rw [hflat]
      rw [List.map_append, List.sum_append] at hsum ⊢
      rw [List.map_cons, List.sum_cons] at hsum
      omega
    · refine ⟨(maxByFirstGo g0 gs).2, pre, post, hdec, rfl, hmax, hpre⟩

/-- Closed instance of claim_C2: three documents, two distinct values. -/
theorem claim_C2_witness :
    ∃ fd, compute_field_diff []
        [⟨"d1", some "A", none, 1⟩, ⟨"d2", some "A", none, 1⟩,
         ⟨"d3", some "B", none, 1⟩] = some fd ∧
      fd.unique_values = 2 ∧ fd.total_documents = 3 ∧ fd.is_unanimous = false := by
  obtain ⟨fd, heq, hvg, hu, ht, hiu, hout1, hout2, hmaj⟩ := claim_C2 []
    [⟨"d1", some "A", none, 1⟩, ⟨"d2", some "A", none, 1⟩,
     ⟨"d3", some "B", none, 1⟩] (by simp)
  refine ⟨fd, heq, ?_, ?_, ?_⟩
  · rw [hu]
    decide
  · rw [ht]
    rfl
  · cases hb : fd.is_unanimous
    · rfl
    · exact absurd (hiu.mp hb) (by decide)

/-- A matched year group is four digit characters. -/
theorem take4digits_spec (l g : List Char) (h : take4digits l = some g) :
    (∀ c ∈ g, isDigitC c = true) ∧ g.length = 4 := by
  unfold take4digits at h
  split at h
  · rename_i a b c d r
    split at h
    · rename_i hcond
      simp only [Bool.and_eq_true] at hcond
      injection h with h
      subst h
      refine ⟨?_, rfl⟩
      intro x hx
      rcases List.mem_cons.mp hx with rfl | hx
      · exact hcond.1.1.1
      rcases List.mem_cons.mp hx with rfl | hx
      · exact hcond.1.1.2
      rcases List.mem_cons.mp hx with rfl | hx
      · exact hcond.1.2
      rcases List.mem_cons.mp hx with rfl | hx
      · exact hcond.2
      · exact absurd hx (List.not_mem_nil x)
    · exact absurd h (by simp)
  · exact absurd h (by simp)

/-- Shape of the one-digit second group of the slash pattern. -/
theorem slashG2one_spec (l : List Char) (g2 g3 : List Char)
    (h : slashG2one l = some (g2, g3)) :
    (∀ c ∈ g2, isDigitC c = true) ∧ (g2.length = 1 ∨ g2.length = 2) ∧
    (∀ c ∈ g3, isDigitC c = true) ∧ g3.length = 4 := by
  unfold slashG2one at h
  split at h
  · rename_i a s r2
    split at h
    · rename_i hcond
      simp only [Bool.and_eq_true, decide_eq_true_eq] at hcond
      rw [Option.map_eq_some'] at h
      obtain ⟨g3', hg3, heq⟩ := h
      rw [Prod.mk.injEq] at heq
      obtain ⟨h1, h2⟩ := heq
      subst h1
      subst h2
      obtain ⟨hd3, hl3⟩ := take4digits_spec r2 g3' hg3
      refine ⟨?_, Or.inl rfl, hd3, hl3⟩
      intro x hx
      rcases List.mem_cons.mp hx with rfl | hx
      · exact hcond.1
      · exact absurd hx (List.not_mem_nil x)
    · exact absurd h (by simp)
  · exact absurd h (by simp)

/-- Shape of the second and third slash groups. -/
theorem slashG2_spec (l : List Char) (g2 g3 : List Char)
    (h : slashG2 l = some (g2, g3)) :
    (∀ c ∈ g2, isDigitC c = true) ∧ (g2.length = 1 ∨ g2.length = 2) ∧
    (∀ c ∈ g3, isDigitC c = true) ∧ g3.length = 4 := by
  unfold slashG2 at h
  split at h
  · rename_i a b s r2
    split at h
    · rename_i hcond
      simp only [Bool.and_eq_true, decide_eq_true_eq] at hcond
      split at h
      · rename_i g3' hg3
        injection h with h
        rw [Prod.mk.injEq] at h
        obtain ⟨h1, h2⟩ := h
        subst h1
        subst h2
        obtain ⟨hd3, hl3⟩ := take4digits_spec r2 g3' hg3
        refine ⟨?_, Or.inr rfl, hd3, hl3⟩
        intro x hx
        rcases List.mem_cons.mp hx with rfl | hx
        · exact hcond.1.1
        rcases List.mem_cons.mp hx with rfl | hx
        · exact hcond.1.2
        · exact absurd hx (List.not_mem_nil x)
      · exact slashG2one_spec _ _ _ h
    · exact slashG2one_spec _ _ _ h
  · exact slashG2one_spec _ _ _ h

/-- Shape of an anchored slash match starting with a one-digit group. -/
theorem slashAtOne_spec (l : List Char) (g1 g2 g3 : List Char)
    (h : slashAtOne l = some (g1, g2, g3)) :
    ((∀ c ∈ g1, isDigitC c = true) ∧ (g1.length = 1 ∨ g1.length = 2) ∧
     (∀ c ∈ g2, isDigitC c = true) ∧ (g2.length = 1 ∨ g2.length = 2) ∧
     (∀ c ∈ g3, isDigitC c = true) ∧ g3.length = 4) ∧ '/' ∈ l := by
  unfold slashAtOne at h
  split at h
  · rename_i a s rest
    split at h
    · rename_i hcond
      simp only [Bool.and_eq_true, decide_eq_true_eq] at hcond
      rw [Option.map_eq_some'] at h
      obtain ⟨p, hp, heq⟩ := h
      obtain ⟨p2, p3⟩ := p
      rw [Prod.mk.injEq] at heq
      obtain ⟨h1, h23⟩ := heq
      rw [Prod.mk.injEq] at h23
      obtain ⟨h2, h3⟩ := h23
      subst h1
      subst h2
      subst h3
      obtain ⟨hd2, hl2, hd3, hl3⟩ := slashG2_spec rest p2 p3 hp
      refine ⟨⟨?_, Or.inl rfl, hd2, hl2, hd3, hl3⟩, ?_⟩
      · intro x hx
        rcases List.mem_cons.mp hx with rfl | hx
        · exact hcond.1
        · exact absurd hx (List.not_mem_nil x)
      · rw [hcond.2]
        exact List.mem_cons_of_mem _ (List.mem_cons_self _ _)
    · exact absurd h (by simp)
  · exact absurd h (by simp)

/-- Shape of an anchored slash match, and the slash it consumes. -/
theorem slashAt_spec (l : List Char) (g1 g2 g3 : List Char)
    (h : slashAt l = some (g1, g2, g3)) :
    ((∀ c ∈ g1, isDigitC c = true) ∧ (g1.length = 1 ∨ g1.length = 2) ∧
     (∀ c ∈ g2, isDigitC c = true) ∧ (g2.length = 1 ∨ g2.length = 2) ∧
     (∀ c ∈ g3, isDigitC c = true) ∧ g3.length = 4) ∧ '/' ∈ l := by
  unfold slashAt at h
  split at h
  · rename_i a b s rest
    split at h
    · rename_i hcond
      simp only [Bool.and_eq_true, decide_eq_true_eq] at hcond
      split at h
      · rename_i p hp
        obtain ⟨p2, p3⟩ := p
        injection h with h
        rw [Prod.mk.injEq] at h
        obtain ⟨h1, h23⟩ := h
        rw [Prod.mk.injEq] at h23
        obtain ⟨h2, h3⟩ := h23
        subst h1
        subst h2
        subst h3
        obtain ⟨hd2, hl2, hd3, hl3⟩ := slashG2_spec rest p2 p3 hp
        refine ⟨⟨?_, Or.inr rfl, hd2, hl2, hd3, hl3⟩, ?_⟩
        · intro x hx
          rcases List.mem_cons.mp hx with rfl | hx
          · exact hcond.1.1
          rcases List.mem_cons.mp hx with rfl | hx
          · exact hcond.1.2
          · exact absurd hx (List.not_mem_nil x)
        · rw [hcond.2]
          exact List.mem_cons_of_mem _ (List.mem_cons_of_mem _ (List.mem_cons_self _ _))
      · exact slashAtOne_spec _ _ _ _ h
    · exact slashAtOne_spec _ _ _ _ h
  · exact slashAtOne_spec _ _ _ _ h

/-- A successful slash-date search yields digit groups of width 1-2, 1-2
and 4, and the input contains a slash. -/
theorem slashFindL_spec : ∀ (l : List Char) (g1 g2 g3 : List Char),
    slashFindL l = some (g1, g2, g3) →
    ((∀ c ∈ g1, isDigitC c = true) ∧ (g1.length = 1 ∨ g1.length = 2) ∧
     (∀ c ∈ g2, isDigitC c = true) ∧ (g2.length = 1 ∨ g2.length = 2) ∧
     (∀ c ∈ g3, isDigitC c = true) ∧ g3.length = 4) ∧ '/' ∈ l := by
  intro l
  induction l with
  | nil => intro g1 g2 g3 h; exact absurd h (by simp [slashFindL])
  | cons c rest ih =>
    intro g1 g2 g3 h
    unfold slashFindL at h
    split at h
    · rename_i r hr
      injection h with h
      subst h
      exact slashAt_spec (c :: rest) g1 g2 g3 hr
    · obtain ⟨hsh, hm⟩ := ih g1 g2 g3 h
      exact ⟨hsh, List.mem_cons_of_mem _ hm⟩

/-- An anchored ISO match is an exactly shaped YYYY-MM-DD string. -/
theorem isoPrefixAt_spec (l m : List Char) (h : isoPrefixAt l = some m) :
    isIsoShaped m = true := by
  unfold isoPrefixAt at h
  split at h
  · rename_i y1 y2 y3 y4 h1 m1 m2 h2 d1 d2 rest
    split at h
    · rename_i hcond
      injection h with h
      subst h
      exact hcond
    · exact absurd h (by simp)
  · exact absurd h (by simp)

/-- A successful ISO search returns an exactly shaped YYYY-MM-DD string. -/
theorem isoFindL_spec : ∀ (l m : List Char), isoFindL l = some m →
    isIsoShaped m = true := by
  intro l
  induction l with
  | nil => intro m h; exact absurd h (by simp [isoFindL])
  | cons c rest ih =>
    intro m h
    unfold isoFindL at h
    split at h
    · rename_i m' hm
      injection h with h
      subst h
      exact isoPrefixAt_spec _ _ hm
    · exact ih m h

/-- Every character of an ISO shaped string is a digit or a dash. -/
theorem shaped_chars (l : List Char) (h : isIsoShaped l = true) :
    ∀ c ∈ l, isDigitC c = true ∨ c = '-' := by
  rcases l with _ | ⟨y1, _ | ⟨y2, _ | ⟨y3, _ | ⟨y4, _ | ⟨h1, _ | ⟨m1, _ | ⟨m2, _ | ⟨h2, _ | ⟨d1, _ | ⟨d2, _ | ⟨x, xs⟩⟩⟩⟩⟩⟩⟩⟩⟩⟩⟩ <;>
    first
      | exact (Bool.false_ne_true h).elim
      | skip
  · simp only [isIsoShaped, Bool.and_eq_true, decide_eq_true_eq] at h
    intro c hc
    rcases List.mem_cons.mp hc with rfl | hc
    · exact Or.inl h.1.1.1.1.1.1.1.1.1
    rcases List.mem_cons.mp hc with rfl | hc
    · exact Or.inl h.1.1.1.1.1.1.1.1.2
    rcases List.mem_cons.mp hc with rfl | hc
    · exact Or.inl h.1.1.1.1.1.1.1.2
    rcases List.mem_cons.mp hc with rfl | hc
    · exact Or.inl h.1.1.1.1.1.1.2
    rcases List.mem_cons.mp hc with rfl | hc
    · exact Or.inr h.1.1.1.1.1.2
    rcases List.mem_cons.mp hc with rfl | hc
    · exact Or.inl h.1.1.1.1.2
    rcases List.mem_cons.mp hc with rfl | hc
    · exact Or.inl h.1.1.1.2
    rcases List.mem_cons.mp hc with rfl | hc
    · exact Or.inr h.1.1.2
    rcases List.mem_cons.mp hc with rfl | hc
    · exact Or.inl h.1.2
    rcases List.mem_cons.mp hc with rfl | hc
    · exact Or.inl h.2
    · exact absurd hc (List.not_mem_nil c)

/-- An ISO shaped string contains no slash, so the slash search fails. -/
theorem shaped_no_slash (l : List Char) (h : isIsoShaped l = true) :
    slashFindL l = none := by
  cases hs : slashFindL l with
  | none => rfl
  | some r =>
    exfalso
    obtain ⟨g1, g2, g3⟩ := r
    have hm := (slashFindL_spec l g1 g2 g3 hs).2
    rcases shaped_chars l h '/' hm with hd | hd
    · exact absurd hd (by decide)
    · exact absurd hd (by decide)

/-- The anchored ISO matcher accepts an exactly shaped string whole. -/
theorem isoPrefixAt_of_shaped (l : List Char) (h : isIsoShaped l = true) :
    isoPrefixAt l = some l := by
  rcases l with _ | ⟨y1, _ | ⟨y2, _ | ⟨y3, _ | ⟨y4, _ | ⟨h1, _ | ⟨m1, _ | ⟨m2, _ | ⟨h2, _ | ⟨d1, _ | ⟨d2, _ | ⟨x, xs⟩⟩⟩⟩⟩⟩⟩⟩⟩⟩⟩ <;>
    first
      | exact (Bool.false_ne_true h).elim
      | skip
  · exact if_pos h

/-- The ISO search on an exactly shaped string returns it unchanged. -/
theorem isoFindL_of_shaped (l : List Char) (h : isIsoShaped l = true) :
    isoFindL l = some l := by
  cases hl : l with
  | nil => rw [hl] at h; exact absurd h (by decide)
  | cons c rest =>
    subst hl
    unfold isoFindL
    rw [isoPrefixAt_of_shaped _ h]

/-- A matched month number comes from the month table. -/
theorem monthAtGo_mem : ∀ (tbl : List (String × Nat)) (l : List Char) (mo : Nat)
    (r : List Char), monthAtGo tbl l = some (mo, r) → ∃ nm, (nm, mo) ∈ tbl := by
  intro tbl
  induction tbl with
  | nil => intro l mo r h; exact absurd h (by simp [monthAtGo])
  | cons e rest ih =>
    obtain ⟨nm, num⟩ := e
    intro l mo r h
    unfold monthAtGo at h
    split at h
    · injection h with h
      rw [Prod.mk.injEq] at h
      refine ⟨nm, ?_⟩
      rw [← h.1]
      exact List.mem_cons_self _ _
    · obtain ⟨nm', hm⟩ := ih l mo r h
      exact ⟨nm', List.mem_cons_of_mem _ hm⟩

/-- A matched month number lies between 1 and 12. -/
theorem month_bounds (l : List Char) (mo : Nat) (r : List Char)
    (h : monthAtGo monthTable l = some (mo, r)) : 1 ≤ mo ∧ mo ≤ 12 := by
  obtain ⟨nm, hm⟩ := monthAtGo_mem monthTable l mo r h
  have hall : ∀ e ∈ monthTable, 1 ≤ e.2 ∧ e.2 ≤ 12 := by decide
  exact hall (nm, mo) hm

/-- The year group of the long pattern without comma: four digits. -/
theorem commaYearNo_spec (l y : List Char) (h : commaYearNo l = some y) :
    (∀ c ∈ y, isDigitC c = true) ∧ y.length = 4 := by
  unfold commaYearNo at h
  split at h
  · exact take4digits_spec _ _ h
  · exact absurd h (by simp)

/-- The year group of the long pattern: four digits. -/
theorem commaYear_spec (l y : List Char) (h : commaYear l = some y) :
    (∀ c ∈ y, isDigitC c = true) ∧ y.length = 4 := by
  unfold commaYear at h
  split at h
  · split at h
    · split at h
      · split at h
        · rename_i y' hy
          injection h with h
          subst h
          exact take4digits_spec _ _ hy
        · exact commaYearNo_spec _ _ h
      · exact commaYearNo_spec _ _ h
    · exact commaYearNo_spec _ _ h
  · exact absurd h (by simp)

/-- Shape of an anchored long-form date match: month 1-12, day of one or
two digit characters, year of four digit characters. -/
theorem longAt_spec (l : List Char) (mo : Nat) (ds ys : List Char)
    (h : longAt l = some (mo, ds, ys)) :
    (1 ≤ mo ∧ mo ≤ 12) ∧ (∀ c ∈ ds, isDigitC c = true) ∧
    (ds.length = 1 ∨ ds.length = 2) ∧
    (∀ c ∈ ys, isDigitC c = true) ∧ ys.length = 4 := by
  unfold longAt at h
  split at h
  · exact absurd h (by simp)
  · rename_i mo1 r1 hmonth
    split at h
    · exact absurd h (by simp)
    · rename_i r2 hsp
      split at h
      · rename_i a b r3
        split at h
        · rename_i hab
          simp only [Bool.and_eq_true] at hab
          split at h
          · rename_i y hy
            injection h with h
            rw [Prod.mk.injEq] at h
            obtain ⟨hmo, h23⟩ := h
            rw [Prod.mk.injEq] at h23
            obtain ⟨hds, hys⟩ := h23
            subst hmo
            subst hds
            subst hys
            obtain ⟨hyd, hyl⟩ := commaYear_spec _ _ hy
            refine ⟨month_bounds _ _ _ hmonth, ?_, Or.inr rfl, hyd, hyl⟩
            intro x hx
            rcases List.mem_cons.mp hx with rfl | hx
            · exact hab.1
            rcases List.mem_cons.mp hx with rfl | hx
            · exact hab.2
            · exact absurd hx (List.not_mem_nil x)
          · split at h
            · rename_i y hy
              injection h with h
              rw [Prod.mk.injEq] at h
              obtain ⟨hmo, h23⟩ := h
              rw [Prod.mk.injEq] at h23
              obtain ⟨hds, hys⟩ := h23
              subst hmo
              subst hds
              subst hys
              obtain ⟨hyd, hyl⟩ := commaYear_spec _ _ hy
              refine ⟨month_bounds _ _ _ hmonth, ?_, Or.inl rfl, hyd, hyl⟩
              intro x hx
              rcases List.mem_cons.mp hx with rfl | hx
              · exact hab.1
              · exact absurd hx (List.not_mem_nil x)
            · exact absurd h (by simp)
        · split at h
          · rename_i ha
            split at h
            · rename_i y hy
              injection h with h
              rw [Prod.mk.injEq] at h
              obtain ⟨hmo, h23⟩ := h
              rw [Prod.mk.injEq] at h23
              obtain ⟨hds, hys⟩ := h23
              subst hmo
              subst hds
              subst hys
              obtain ⟨hyd, hyl⟩ := commaYear_spec _ _ hy
              refine ⟨month_bounds _ _ _ hmonth, ?_, Or.inl rfl, hyd, hyl⟩
              intro x hx
              rcases List.mem_cons.mp hx with rfl | hx
              · exact ha
              · exact absurd hx (List.not_mem_nil x)
            · exact absurd h (by simp)
          · exact absurd h (by simp)
      · exact absurd h (by simp)

/-- Shape of a successful long-form date search. -/
theorem longFindL_spec : ∀ (l : List Char) (mo : Nat) (ds ys : List Char),
    longFindL l = some (mo, ds, ys) →
    (1 ≤ mo ∧ mo ≤ 12) ∧ (∀ c ∈ ds, isDigitC c = true) ∧
    (ds.length = 1 ∨ ds.length = 2) ∧
    (∀ c ∈ ys, isDigitC c = true) ∧ ys.length = 4 := by
  intro l
  induction l with
  | nil => intro mo ds ys h; exact absurd h (by simp [longFindL])
  | cons c rest ih =>
    intro mo ds ys h
    unfold longFindL at h
    split at h
    · rename_i r hr
      injection h with h
      subst h
      exact longAt_spec _ _ _ _ hr
    · exact ih mo ds ys h

/-- The decimal fold over digit characters is bounded by the width. -/
theorem digitsFoldl_lt : ∀ (l : List Char) (acc : Nat),
    (∀ c ∈ l, isDigitC c = true) →
    l.foldl (fun a c => a * 10 + (c.toNat - 48)) acc < (acc + 1) * 10 ^ l.length := by
  intro l
  induction l with
  | nil => intro acc _; simp
  | cons c rest ih =>
    intro acc hd
    have hc : c.toNat - 48 ≤ 9 := by
      have := hd c (List.mem_cons_self _ _)
      unfold isDigitC at this
      simp only [Bool.and_eq_true, decide_eq_true_eq] at this
      omega
    rw [List.foldl_cons]
    have h1 := ih (acc * 10 + (c.toNat - 48)) (fun x hx => hd x (List.mem_cons_of_mem _ hx))
    have h2 : (acc * 10 + (c.toNat - 48) + 1) * 10 ^ rest.length
        ≤ ((acc + 1) * 10) * 10 ^ rest.length :=
      Nat.mul_le_mul_right _ (by omega)
    have h3 : ((acc + 1) * 10) * 10 ^ rest.length = (acc + 1) * 10 ^ (rest.length + 1) := by
      rw [pow_succ]
      ring
    calc rest.foldl (fun a c => a * 10 + (c.toNat - 48)) (acc * 10 + (c.toNat - 48))
        < (acc * 10 + (c.toNat - 48) + 1) * 10 ^ rest.length := h1
      _ ≤ ((acc + 1) * 10) * 10 ^ rest.length := h2
      _ = (acc + 1) * 10 ^ (rest.length + 1) := h3
      _ = (acc + 1) * 10 ^ (c :: rest).length := by rw [List.length_cons]

/-- The numeric value of a digit string is below ten to its length. -/
theorem digitsToNat_lt (l : List Char) (h : ∀ c ∈ l, isDigitC c = true) :
    digitsToNat l < 10 ^ l.length := by
  have := digitsFoldl_lt l 0 h
  unfold digitsToNat
  simpa using this

/-- Every character emitted by the decimal printer is a digit. -/
theorem natDigitsGo_digits : ∀ (fuel n : Nat) (acc : List Char),
    (∀ c ∈ acc, isDigitC c = true) →
    ∀ c ∈ natDigitsGo fuel n acc, isDigitC c = true := by
  intro fuel
  induction fuel with
  | zero => intro n acc hacc; exact hacc
  | succ f ih =>
    intro n acc hacc
    have hd : isDigitC (Char.ofNat (48 + n % 10)) = true := by
      have hm : n % 10 < 10 := Nat.mod_lt _ (by norm_num)
      unfold isDigitC
      rw [toNat_charOfNat _ (by omega)]
      simp only [Bool.and_eq_true, decide_eq_true_eq]
      omega
    unfold natDigitsGo
    dsimp only
    split
    · intro c hc
      rcases List.mem_cons.mp hc with rfl | hc
      · exact hd
      · exact hacc c hc
    · refine ih (n / 10) _ ?_
      intro c hc
      rcases List.mem_cons.mp hc with rfl | hc
      · exact hd
      · exact hacc c hc

/-- The decimal printer never shortens its accumulator. -/
theorem natDigitsGo_len_mono : ∀ (fuel n : Nat) (acc : List Char),
    acc.length ≤ (natDigitsGo fuel n acc).length := by
  intro fuel
  induction fuel with
  | zero => intro n acc; exact le_refl _
  | succ f ih =>
    intro n acc
    unfold natDigitsGo
    dsimp only
    split
    · simp
    · exact le_trans (Nat.le_succ _) (ih (n / 10) (Char.ofNat (48 + n % 10) :: acc))

/-- The decimal print of n below ten to the k has at most k digits. -/
theorem natDigitsGo_len_le : ∀ (fuel k n : Nat) (acc : List Char),
    n < 10 ^ k → 1 ≤ k → (natDigitsGo fuel n acc).length ≤ k + acc.length := by
  intro fuel
  induction fuel with
  | zero =>
    intro k n acc _ _
    unfold natDigitsGo
    omega
  | succ f ih =>
    intro k n acc hn hk
    unfold natDigitsGo
    dsimp only
    split
    · simp
      omega
    · rename_i hge
      have hk2 : 2 ≤ k := by
        by_contra hcon
        have hk1 : k = 1 := by omega
        rw [hk1] at hn
        norm_num at hn
        omega
      have h10 : (10 : Nat) ^ (k - 1) * 10 = 10 ^ k := by
        rw [← pow_succ]
        congr 1
        omega
      have hdiv : n / 10 < 10 ^ (k - 1) := by
        rw [Nat.div_lt_iff_lt_mul (by norm_num)]
        omega
      have := ih (k - 1) (n / 10) (Char.ofNat (48 + n % 10) :: acc) hdiv (by omega)
      simp only [List.length_cons] at this
      omega

/-- str(n) consists of digit characters. -/
theorem natDigitsL_digits (n : Nat) : ∀ c ∈ natDigitsL n, isDigitC c = true :=
  natDigitsGo_digits _ _ [] (by simp)

/-- str(n) has at most k digits when n is below ten to the k. -/
theorem natDigitsL_len_le (n k : Nat) (hn : n < 10 ^ k) (hk : 1 ≤ k) :
    (natDigitsL n).length ≤ k := by
  have := natDigitsGo_len_le (n + 1) k n [] hn hk
  simpa using this

/-- Zero padding a short string reaches exactly the requested width. -/
theorem padZero_len (w : Nat) (l : List Char) (h : l.length ≤ w) :
    (padZero w l).length = w := by
  unfold padZero
  simp
  omega

/-- Zero padding preserves digit-only strings. -/
theorem padZero_digits (w : Nat) (l : List Char)
    (h : ∀ c ∈ l, isDigitC c = true) : ∀ c ∈ padZero w l, isDigitC c = true := by
  intro c hc
  rcases List.mem_append.mp hc with h1 | h1
  · rw [List.eq_of_mem_replicate h1]
    decide
  · exact h c h1

/-- A list of length four is literally four elements. -/
theorem length_eq_four {α : Type} : ∀ (l : List α), l.length = 4 →
    ∃ a b c d, l = [a, b, c, d]
  | [a, b, c, d], _ => ⟨a, b, c, d, rfl⟩
  | [], h => nomatch h
  | [_], h => nomatch h
  | [_, _], h => nomatch h
  | [_, _, _], h => nomatch h
  | _ :: _ :: _ :: _ :: _ :: _, h => nomatch h

/-- A list of length two is literally two elements. -/
theorem length_eq_two {α : Type} : ∀ (l : List α), l.length = 2 → ∃ a b, l = [a, b]
  | [a, b], _ => ⟨a, b, rfl⟩
  | [], h => nomatch h
  | [_], h => nomatch h
  | _ :: _ :: _ :: _, h => nomatch h

/-- Four digits, dash, two digits, dash, two digits assemble to the ISO
shape (left-associated form). -/
theorem iso_assemble (l1 l2 l3 : List Char)
    (h1 : l1.length = 4) (h2 : l2.length = 2) (h3 : l3.length = 2)
    (hd1 : ∀ c ∈ l1, isDigitC c = true) (hd2 : ∀ c ∈ l2, isDigitC c = true)
    (hd3 : ∀ c ∈ l3, isDigitC c = true) :
    isIsoShaped (l1 ++ '-' :: l2 ++ '-' :: l3) = true := by
  obtain ⟨a, b, c, d, rfl⟩ := length_eq_four l1 h1
  obtain ⟨e, f, rfl⟩ := length_eq_two l2 h2
  obtain ⟨g, i, rfl⟩ := length_eq_two l3 h3
  show isIsoShaped [a, b, c, d, '-', e, f, '-', g, i] = true
  simp [isIsoShaped, hd1 a (by simp), hd1 b (by simp), hd1 c (by simp),
        hd1 d (by simp), hd2 e (by simp), hd2 f (by simp), hd3 g (by simp),
        hd3 i (by simp)]

/-- strftime of bounded numbers produces an ISO shaped string. -/
theorem fmtIso_shaped (y mo d : Nat) (hy : y < 10000) (hmo : mo < 100)
    (hd : d < 100) : isIsoShaped (fmtIso y mo d) = true := by
  unfold fmtIso
  refine iso_assemble _ _ _ ?_ ?_ ?_ ?_ ?_ ?_
  · exact padZero_len 4 _ (natDigitsL_len_le y 4 (by norm_num [hy]) (by norm_num))
  · exact padZero_len 2 _ (natDigitsL_len_le mo 2 (by norm_num [hmo]) (by norm_num))
  · exact padZero_len 2 _ (natDigitsL_len_le d 2 (by norm_num [hd]) (by norm_num))
  · exact padZero_digits _ _ (natDigitsL_digits y)
  · exact padZero_digits _ _ (natDigitsL_digits mo)
  · exact padZero_digits _ _ (natDigitsL_digits d)

/-- The assembly lemma in the association used by the slash branch. -/
theorem iso_assemble2 (l1 l2 l3 : List Char)
    (h1 : l1.length = 4) (h2 : l2.length = 2) (h3 : l3.length = 2)
    (hd1 : ∀ c ∈ l1, isDigitC c = true) (hd2 : ∀ c ∈ l2, isDigitC c = true)
    (hd3 : ∀ c ∈ l3, isDigitC c = true) :
    isIsoShaped (l1 ++ '-' :: (l2 ++ '-' :: l3)) = true := by
  rw [show l1 ++ '-' :: (l2 ++ '-' :: l3) = l1 ++ '-' :: l2 ++ '-' :: l3 from by simp]
  exact iso_assemble l1 l2 l3 h1 h2 h3 hd1 hd2 hd3

/-- C4 (amended): stripping then matching drives DATE normalization: a slash
match yields the rearranged zero-padded ISO string; otherwise an ISO search
hit is returned verbatim (so an already-ISO value round-trips unchanged);
otherwise a long-form match yields the strftime ISO string when the
strptime/calendar check passes, and the stripped input unchanged when it
fails (the spec missed this fallthrough; see the counterexample); with no
match the stripped input is returned un-normalized. -/
theorem claim_C4 (v0 : String) (hv : v0.data.isEmpty = false) :
    (∀ g1 g2 g3, slashFindL (pyStripL v0.data) = some (g1, g2, g3) →
      normalize_value (some v0) "DATE"
          = some ⟨g3 ++ '-' :: (padZero 2 g1 ++ '-' :: padZero 2 g2)⟩ ∧
      isIsoShaped (g3 ++ '-' :: (padZero 2 g1 ++ '-' :: padZero 2 g2)) = true) ∧
    (slashFindL (pyStripL v0.data) = none →
      ∀ m, isoFindL (pyStripL v0.data) = some m →
        normalize_value (some v0) "DATE" = some ⟨m⟩ ∧ isIsoShaped m = true) ∧
    (slashFindL (pyStripL v0.data) = none →
      isoFindL (pyStripL v0.data) = none →
      ∀ mo ds ys, longFindL (pyStripL v0.data) = some (mo, ds, ys) →
        (strptimeOk mo ds ys = true →
          normalize_value (some v0) "DATE"
              = some ⟨fmtIso (digitsToNat ys) mo (digitsToNat ds)⟩ ∧
          isIsoShaped (fmtIso (digitsToNat ys) mo (digitsToNat ds)) = true) ∧
        (strptimeOk mo ds ys = false →
          normalize_value (some v0) "DATE" = some ⟨pyStripL v0.data⟩)) ∧
    (slashFindL (pyStripL v0.data) = none →
      isoFindL (pyStripL v0.data) = none →
      longFindL (pyStripL v0.data) = none →
      normalize_value (some v0) "DATE" = some ⟨pyStripL v0.data⟩) ∧
    (isIsoShaped (pyStripL v0.data) = true →
      normalize_value (some v0) "DATE" = some ⟨pyStripL v0.data⟩) := by
  have hiso2 : ∀ m, slashFindL (pyStripL v0.data) = none →
      isoFindL (pyStripL v0.data) = some m →
      normalize_value (some v0) "DATE" = some ⟨m⟩ := by
    intro m hsl hiso
    unfold normalize_value
    dsimp only
    rw [if_neg (by simp [hv]), if_pos rfl, hsl, hiso]
  refine ⟨fun g1 g2 g3 hsl => ?_, fun hsl m hiso => ?_,
          fun hsl hiso mo ds ys hlong => ⟨fun hok => ?_, fun hbad => ?_⟩,
          fun hsl hiso hlong => ?_, fun hshaped => ?_⟩
  · obtain ⟨⟨hd1, hl1, hd2, hl2, hd3, hl3⟩, _⟩ :=
      slashFindL_spec (pyStripL v0.data) g1 g2 g3 hsl
    refine ⟨?_, ?_⟩
    · unfold normalize_value
      dsimp only
      rw [if_neg (by simp [hv]), if_pos rfl, hsl]
    · refine iso_assemble2 g3 (padZero 2 g1) (padZero 2 g2) hl3 ?_ ?_ hd3 ?_ ?_
      · exact padZero_len 2 g1 (by omega)
      · exact padZero_len 2 g2 (by omega)
      · exact padZero_digits _ _ hd1
      · exact padZero_digits _ _ hd2
  · exact ⟨hiso2 m hsl hiso, isoFindL_spec _ _ hiso⟩
  · obtain ⟨⟨hmo1, hmo2⟩, hdd, hdl, hyd, hyl⟩ :=
      longFindL_spec (pyStripL v0.data) mo ds ys hlong
    refine ⟨?_, ?_⟩
    · unfold normalize_value
      dsimp only
      rw [if_neg (by simp [hv]), if_pos rfl, hsl, hiso, hlong]
      dsimp only
      rw [if_pos hok]
    · refine fmtIso_shaped _ _ _ ?_ ?_ ?_
      · have := digitsToNat_lt ys hyd
        rw [hyl] at this
        norm_num at this
        exact this
      · omega
      · have := digitsToNat_lt ds hdd
        rcases hdl with hdl | hdl <;> rw [hdl] at this <;> norm_num at this <;> omega
  · unfold normalize_value
    dsimp only
    rw [if_neg (by simp [hv]), if_pos rfl, hsl, hiso, hlong]
    dsimp only
    rw [if_neg (by simp [hbad])]
  · unfold normalize_value
    dsimp only
    rw [if_neg (by simp [hv]), if_pos rfl, hsl, hiso, hlong]
  · exact hiso2 (pyStripL v0.data) (shaped_no_slash _ hshaped)
      (isoFindL_of_shaped _ hshaped)

/-- Closed instance of claim_C4: a slash date and an ISO round-trip. -/
theorem claim_C4_witness :
    normalize_value (some "3/4/2024") "DATE" = some "2024-03-04" ∧
    isIsoShaped "2024-03-04".data = true ∧
    normalize_value (some "2024-03-04") "DATE" = some "2024-03-04" := by
  have h1 := (claim_C4 "3/4/2024" (by decide)).1 "3".data "4".data "2024".data
    (by decide)
  have h2 := ((claim_C4 "2024-03-04" (by decide)).2.2.2.2) (by decide)
  refine ⟨?_, by decide, ?_⟩
  · rw [h1.1]
    decide
  · rw [h2]
    decide

end LegalTabular
